import Mathlib

/-!
Verification development for the read-query core of the TileDB array storage
engine (file `tiledb/sm/subarray/subarray.cc` and the incremental read-query
protocol).  The C++ code is shallowly embedded: 64-bit unsigned machine
arithmetic is modelled as `Nat` with explicit reduction modulo `2^64` at every
operation that can wrap, `double` accumulators are modelled as exact rationals,
and fallible operations return `Except`.  Collaborator interfaces (fragment
metadata, R-tree, schema lookups) are modelled as function-valued fields, as in
the source where they are opaque virtual calls.
-/

namespace TileDB

/-- Modulus of 64-bit unsigned machine arithmetic (`uint64_t`). -/
def M64 : Nat := 2 ^ 64

/-- Largest `uint64_t` value; the overflow sentinel `UINT64_MAX` of the source. -/
def U64MAX : Nat := 2 ^ 64 - 1

/-- Scalar domain types dispatched over by the source's type switches.
`other` stands for any datatype outside the ten supported scalar types and is
what the `default:` branches of the switches reject. -/
inductive Datatype where
  | int8 | uint8 | int16 | uint16 | int32 | uint32 | int64 | uint64
  | float32 | float64
  | other
  deriving DecidableEq

/-- Whether the scalar type is one of the two floating-point types
(`!std::is_integral<T>::value` for the instantiated templates). -/
def Datatype.isReal : Datatype → Bool
  | .float32 => true
  | .float64 => true
  | _ => false

/-- A stored scalar value of the dimension's type.  `num` is the numeric value
(for the two real types, the value of the stored representation), and `nan`
marks a floating-point NaN payload.  Equality of `Val`s models byte-for-byte
equality of the stored representations (what `std::memcmp` compares). -/
structure Val where
  num : Int
  nan : Bool
  deriving DecidableEq

instance : Inhabited Val := ⟨⟨0, false⟩⟩

/-- Cell/tile layouts of the source's `Layout` enum. -/
inductive Layout where
  | rowMajor | colMajor | unordered | globalOrder
  deriving DecidableEq

/-- Modelled from the spec (§4.1): the per-dimension dimension-range store
(class missing from the sources; only its use sites are present).  It keeps an
ordered sequence of `(lo, hi)` pairs; `isDefault` records that the list
currently consists of the single default range inserted at construction. -/
structure RangeStore where
  ranges : List (Val × Val)
  isDefault : Bool
  deriving DecidableEq

instance : Inhabited RangeStore := ⟨⟨[], false⟩⟩

/-- Modelled from the spec (§4.1): appending to the range store discards the
single default range when a non-default range arrives. -/
def RangeStore.addRange (st : RangeStore) (r : Val × Val) (isDef : Bool) : RangeStore :=
  if st.isDefault && !isDef then ⟨[r], false⟩
  else ⟨st.ranges ++ [r], isDef⟩

/-- Overlap of one subarray range with one fragment: fully covered contiguous
tile intervals, and partially covered tiles with their coverage fraction. -/
structure TileOverlap where
  tileRanges : List (Nat × Nat)
  tiles : List (Nat × ℚ)
  deriving DecidableEq

instance : Inhabited TileOverlap := ⟨⟨[], []⟩⟩

/-- Estimated result size accumulator.  The spec's data model (§3, the struct's
definition is not among the sources) makes all four components non-negative
reals; the `double` arithmetic of the source is modelled exactly in `ℚ`. -/
structure ResultSize where
  size_fixed : ℚ
  size_var : ℚ
  mem_size_fixed : ℚ
  mem_size_var : ℚ
  deriving DecidableEq

instance : Inhabited ResultSize := ⟨⟨0, 0, 0, 0⟩⟩

/-- An attribute of the array schema: name and whether it is var-sized. -/
structure Attr where
  name : String
  varSize : Bool
  deriving DecidableEq

/-- Fragment metadata collaborator (§6): per-(attribute, tile) persisted sizes
and the R-tree overlap oracle, opaque to this core. -/
structure FragmentMeta where
  tileSize : String → Nat → Nat
  tileVarSize : String → Nat → Nat
  rtreeOverlap : List (Val × Val) → TileOverlap

instance : Inhabited FragmentMeta :=
  ⟨⟨fun _ _ => 0, fun _ _ => 0, fun _ => ⟨[], []⟩⟩⟩

/-- Array-schema collaborator (§6): the queries `subarray.cc` makes of
`array_->array_schema()`. -/
structure ArraySchema where
  dimNum : Nat
  domain : List (Val × Val)
  domType : Datatype
  cellOrder : Layout
  attrs : List Attr
  dense : Bool
  cellSize : String → Nat

/-- Schema attribute lookup (`array_schema->attribute(name)`). -/
def ArraySchema.attribute (sch : ArraySchema) (nm : String) : Option Attr :=
  sch.attrs.find? (fun a => a.name = nm)

/-- The reserved coordinates attribute name `constants::coords`. -/
def coordsName : String := "__coords"

/-- Modelled from the spec (§4.4): `constants::cell_var_offset_size`, the byte
width of one offsets-buffer entry (a packed `u64`, §6). -/
def cellVarOffsetSize : Nat := 8

/-- The `Subarray` state: schema/fragment view of the array reference, layout,
per-dimension range stores, derived range offsets, cached tile overlap and
estimated sizes, and the two `ready` flags. -/
structure Subarray where
  schema : ArraySchema
  layout : Layout
  fragments : List FragmentMeta
  ranges : List RangeStore
  rangeOffsets : List Nat
  tileOverlap : List (List TileOverlap)
  estResultSize : List (String × ResultSize)
  resultEstSizeComputed : Bool
  tileOverlapComputed : Bool

/-- Number of dimensions (`dim_num()`); delegated to the schema. -/
def Subarray.dimNum (s : Subarray) : Nat := s.schema.dimNum

/-- Number of ranges per dimension (`ranges_[i].range_num()` for each `i`). -/
def Subarray.rangeCounts (s : Subarray) : List Nat :=
  s.ranges.map (fun st => st.ranges.length)

/-- Total number of ranges (`Subarray::range_num`): `0` for no stores, else
the product of the per-dimension counts computed in wrapping `uint64_t`
multiplications (`ret *= r.range_num()`). -/
def Subarray.rangeNum (s : Subarray) : Nat :=
  if s.ranges.isEmpty then 0
  else s.rangeCounts.foldl (fun acc c => acc * c % M64) 1

/-- The layout actually used for offset/coordinate computation:
`(layout_ == Layout::UNORDERED) ? cell_order : layout_`. -/
def Subarray.effLayout (s : Subarray) : Layout :=
  if s.layout = Layout.unordered then s.schema.cellOrder else s.layout

/-- One step per element: emit the running accumulator, then multiply it by the
element in wrapping `uint64_t` arithmetic.  This is the offsets loop of
`compute_range_offsets` (`range_offsets_.push_back(back * range_num)`. -/
def offsetsScan : Nat → List Nat → List Nat
  | _, [] => []
  | acc, c :: cs => acc :: offsetsScan (acc * c % M64) cs

/-- Ghost (proof-side) variant of `offsetsScan` without the `uint64_t` wrap. -/
def plainScan : Nat → List Nat → List Nat
  | _, [] => []
  | acc, c :: cs => acc :: plainScan (acc * c) cs

/-- `Subarray::compute_range_offsets`.  Row-major scans the per-dimension
counts right-to-left and reverses; col-major scans left-to-right; the
`unordered` layout was already replaced by the array's cell order.  Any other
effective layout runs into `assert(false)`, modelled as `none`.  Faithful for
states carrying one range store per dimension (`ranges_.size() == dim_num()`,
`dim_num ≥ 1`); elsewhere the C++ indexes its vectors out of bounds. -/
def Subarray.computeRangeOffsets (s : Subarray) : Option (List Nat) :=
  match s.effLayout with
  | Layout.colMajor => some (offsetsScan 1 s.rangeCounts)
  | Layout.rowMajor => some ((offsetsScan 1 s.rangeCounts.reverse).reverse)
  | _ => none

/-- The subarray's `range_offsets_` are up to date: recomputing them returns
exactly the stored list (in particular the effective layout is supported). -/
def Subarray.OffsetsComputed (s : Subarray) : Prop :=
  s.computeRangeOffsets = some s.rangeOffsets

/-- Successive division/remainder by each offset: the digit-extraction loop
shared by `get_range_coords` and `range<T>`
(`ret.push_back(tmp_idx / range_offsets_[i]); tmp_idx %= range_offsets_[i]`). -/
def divModScan : Nat → List Nat → List Nat
  | _, [] => []
  | tmp, o :: os => tmp / o :: divModScan (tmp % o) os

/-- The remainder left over after `divModScan` has consumed every offset. -/
def finalRem : Nat → List Nat → Nat
  | tmp, [] => tmp
  | tmp, o :: os => finalRem (tmp % o) os

/-- `Subarray::get_range_coords`: row-major walks the offsets left-to-right;
col-major walks them right-to-left and reverses the digits; any other
effective layout hits `assert(false)` (`none`). -/
def Subarray.getRangeCoords (s : Subarray) (idx : Nat) : Option (List Nat) :=
  match s.effLayout with
  | Layout.rowMajor => some (divModScan idx s.rangeOffsets)
  | Layout.colMajor => some ((divModScan idx s.rangeOffsets.reverse).reverse)
  | _ => none

/-- The accumulation loop of `Subarray::range_idx`:
`ret += range_offsets_[i] * range_coords[i]` in wrapping `uint64_t`. -/
def wrapDot : List Nat → List Nat → Nat → Nat
  | [], _, acc => acc
  | _, [], acc => acc
  | o :: os, c :: cs, acc => wrapDot os cs ((acc + o * c % M64) % M64)

/-- Ghost (proof-side) exact dot product of offsets and coordinates. -/
def exactDot (os cs : List Nat) : Nat :=
  (List.zipWith (fun o c => o * c) os cs).sum

/-- `Subarray::range_idx`: dot product of stored offsets with the coordinate
vector, in wrapping `uint64_t` arithmetic. -/
def Subarray.rangeIdx (s : Subarray) (coords : List Nat) : Nat :=
  wrapDot s.rangeOffsets coords 0

/-- `Subarray::range<T>`: the per-dimension `(lo, hi)` pairs selected by the
digits of `range_idx`.  The source's row- and col-major loops both produce the
selection `ranges_[i].get_range(coords[i])` in dimension order (the col-major
loop reverses at the end), which is this `zipWith` over the digit vector. -/
def Subarray.rangeAt (s : Subarray) (idx : Nat) : Option (List (Val × Val)) :=
  (s.getRangeCoords idx).map (fun cs =>
    List.zipWith (fun st c => st.ranges.getD c default) s.ranges cs)

/-- `Subarray::is_unary(range_idx)`: every selected per-dimension range has
byte-identical halves (`memcmp(r, r + range_size/2, range_size/2) == 0`). -/
def Subarray.isUnaryAt (s : Subarray) (idx : Nat) : Bool :=
  match s.rangeAt idx with
  | some rs => rs.all (fun r => decide (r.1 = r.2))
  | none => false

/-- `Subarray::is_unary()`: a single total range whose per-dimension `(lo,hi)`
halves compare byte-equal. -/
def Subarray.isUnary (s : Subarray) : Bool :=
  if s.rangeNum ≠ 1 then false
  else s.ranges.all (fun st =>
    let r := st.ranges.getD 0 default
    decide (r.1 = r.2))

/-- Modelled from the spec (§4.2, §9): `utils::math::safe_mul`, the
overflow-checked `u64` multiplication (its definition is not among the
sources); on overflow it returns the sentinel `UINT64_MAX`. -/
def safeMul (a b : Nat) : Nat :=
  if a * b > U64MAX then U64MAX else a * b

/-- The per-dimension loop of `Subarray::cell_num<T>`:
`length = r[1] - r[0]` in the machine arithmetic of `T` converted to
`uint64_t` (i.e. the mathematical difference reduced modulo `2^64`), early
return of `UINT64_MAX` when the width `length + 1` itself overflows,
otherwise `ret = safe_mul(length + 1, ret)`. -/
def cellNumLoop : List (Val × Val) → Nat → Nat
  | [], ret => ret
  | r :: rs, ret =>
      let length := ((r.2.num - r.1.num) % (M64 : Int)).toNat
      if length = U64MAX then U64MAX
      else cellNumLoop rs (safeMul (length + 1) ret)

/-- `Subarray::cell_num<T>(range_idx)` at the domain type `t`: `1` for a unary
range, the `UINT64_MAX` sentinel for a non-unary range of real type, else the
overflow-checked product of the per-dimension widths. -/
def Subarray.cellNum (s : Subarray) (t : Datatype) (idx : Nat) : Nat :=
  if s.isUnaryAt idx then 1
  else if t.isReal then U64MAX
  else cellNumLoop ((s.rangeAt idx).getD []) 1

/-- Error kinds of the source's `Status::SubarrayError(...)` returns,
distinguished here by their message. -/
inductive SubErr where
  | nullRange | invalidDim | unsupportedType
  | nanRange | invalidBounds | outOfDomain
  | denseNotSupported | invalidAttribute | invalidSizeInput
  | mustBeFixedSized | mustBeVarSized
  | internal
  deriving DecidableEq

/-- Modelled from the spec (§4.1, §7): `Subarray::check_nan<T>` (not among the
sources): for real `T` a NaN bound fails with `InvalidRange`; integral `T`
passes. -/
def checkNan (t : Datatype) (r : Val × Val) : Bool :=
  t.isReal && (r.1.nan || r.2.nan)

/-- `Subarray::add_range<T>`: clear both ready flags, then validate NaN,
`lo ≤ hi`, and containment in the dimension domain; only then append. -/
def Subarray.addRangeT (s : Subarray) (dimIdx : Nat) (r : Val × Val) :
    Except SubErr Unit × Subarray :=
  let s1 := { s with resultEstSizeComputed := false, tileOverlapComputed := false }
  if checkNan s1.schema.domType r then (Except.error SubErr.nanRange, s1)
  else if r.1.num > r.2.num then (Except.error SubErr.invalidBounds, s1)
  else
    let dom := s1.schema.domain.getD dimIdx default
    if r.1.num < dom.1.num || r.2.num > dom.2.num then
      (Except.error SubErr.outOfDomain, s1)
    else
      let st := (s1.ranges.getD dimIdx default).addRange r false
      (Except.ok (), { s1 with ranges := s1.ranges.set dimIdx st })

/-- `Subarray::add_range(dim_idx, range)`: null-range and dimension-index
checks, then the type switch dispatching to `add_range<T>`; the `default:`
branch rejects unsupported domain types. -/
def Subarray.addRange (s : Subarray) (dimIdx : Nat) (range : Option (Val × Val)) :
    Except SubErr Unit × Subarray :=
  match range with
  | none => (Except.error SubErr.nullRange, s)
  | some r =>
    if s.schema.dimNum ≤ dimIdx then (Except.error SubErr.invalidDim, s)
    else if s.schema.domType = Datatype.other then
      (Except.error SubErr.unsupportedType, s)
    else s.addRangeT dimIdx r

/-- Floor of a rational as an integer (`Int.fdiv` is floor division). -/
def qfloor (q : ℚ) : Int := Int.fdiv q.num q.den

/-- The source's `(uint64_t)ceil(x)` on a non-negative `double`. -/
def qceil (q : ℚ) : Nat := (-(qfloor (-q))).toNat

/-- The tile ids of one fully-covered interval
(`for (tid = tr.first; tid <= tr.second; ++tid)`). -/
def tileIds (tr : Nat × Nat) : List Nat := List.range' tr.1 (tr.2 + 1 - tr.1)

/-- The per-fragment accumulation loop of
`Subarray::compute_est_result_size<T>(attr_name, range_idx, var_size)` over
one `TileOverlap`: fully-covered tile intervals add the whole tile sizes to
both the estimate and the memory bound; partial tiles add the
coverage-scaled size to the estimate but the full size to the memory bound. -/
def accumOverFragment (m : FragmentMeta) (attrName : String) (varSize : Bool)
    (ov : TileOverlap) (acc0 : ResultSize) : ResultSize :=
  let acc1 := ov.tileRanges.foldl (fun acc tr =>
    (tileIds tr).foldl (fun acc tid =>
      if !varSize then
        { acc with
          size_fixed := acc.size_fixed + (m.tileSize attrName tid : ℚ)
          mem_size_fixed := acc.mem_size_fixed + (m.tileSize attrName tid : ℚ) }
      else
        { acc with
          size_fixed := acc.size_fixed + (m.tileSize attrName tid : ℚ)
          size_var := acc.size_var + (m.tileVarSize attrName tid : ℚ)
          mem_size_fixed := acc.mem_size_fixed + (m.tileSize attrName tid : ℚ)
          mem_size_var := acc.mem_size_var + (m.tileVarSize attrName tid : ℚ) })
      acc) acc0
  ov.tiles.foldl (fun acc t =>
    if !varSize then
      { acc with
        size_fixed := acc.size_fixed + (m.tileSize attrName t.1 : ℚ) * t.2
        mem_size_fixed := acc.mem_size_fixed + (m.tileSize attrName t.1 : ℚ) }
    else
      { acc with
        size_fixed := acc.size_fixed + (m.tileSize attrName t.1 : ℚ) * t.2
        size_var := acc.size_var + (m.tileVarSize attrName t.1 : ℚ) * t.2
        mem_size_fixed := acc.mem_size_fixed + (m.tileSize attrName t.1 : ℚ)
        mem_size_var := acc.mem_size_var + (m.tileVarSize attrName t.1 : ℚ) })
    acc1

/-- The pre-calibration body of
`Subarray::compute_est_result_size<T>(attr_name, range_idx, var_size)`:
fold `accumOverFragment` over all fragments, starting from `{0, 0, 0, 0}`. -/
def Subarray.estAccum (s : Subarray) (attrName : String) (rangeIdx : Nat)
    (varSize : Bool) : ResultSize :=
  (List.range s.fragments.length).foldl (fun acc f =>
    accumOverFragment (s.fragments.getD f default) attrName varSize
      ((s.tileOverlap.getD f []).getD rangeIdx default) acc)
    ⟨0, 0, 0, 0⟩

/-- Ghost: total size of a list of fully-covered tile intervals under a size
functional. -/
def fullListSum (sz : Nat → Nat) (l : List (Nat × Nat)) : ℚ :=
  (l.map (fun tr => ((tileIds tr).map (fun tid => (sz tid : ℚ))).sum)).sum

/-- Ghost: coverage-scaled total size of a list of partially-covered tiles. -/
def scaledListSum (sz : Nat → Nat) (l : List (Nat × ℚ)) : ℚ :=
  (l.map (fun t => (sz t.1 : ℚ) * t.2)).sum

/-- Ghost: unscaled total size of a list of partially-covered tiles. -/
def wholeListSum (sz : Nat → Nat) (l : List (Nat × ℚ)) : ℚ :=
  (l.map (fun t => (sz t.1 : ℚ))).sum

/-- Ghost: total size of all fully-covered tiles of one overlap. -/
def fullSum (sz : Nat → Nat) (ov : TileOverlap) : ℚ :=
  fullListSum sz ov.tileRanges

/-- Ghost: coverage-scaled total size of the partially-covered tiles. -/
def scaledTilesSum (sz : Nat → Nat) (ov : TileOverlap) : ℚ :=
  scaledListSum sz ov.tiles

/-- Ghost: unscaled total size of the partially-covered tiles. -/
def wholeTilesSum (sz : Nat → Nat) (ov : TileOverlap) : ℚ :=
  wholeListSum sz ov.tiles

/-- Ghost: the fixed-size functional of fragment `f` at attribute `nm`. -/
def fragTileSize (s : Subarray) (nm : String) (f : Nat) : Nat → Nat :=
  (s.fragments.getD f default).tileSize nm

/-- Ghost: the var-size functional of fragment `f` at attribute `nm`. -/
def fragTileVarSize (s : Subarray) (nm : String) (f : Nat) : Nat → Nat :=
  (s.fragments.getD f default).tileVarSize nm

/-- Ghost: the cached overlap of fragment `f` with the range at `idx`. -/
def fragOverlap (s : Subarray) (idx f : Nat) : TileOverlap :=
  (s.tileOverlap.getD f []).getD idx default

/-- `Subarray::compute_est_result_size<T>(attr_name, range_idx, var_size)`:
accumulate over fragments, then calibrate `size_fixed`/`size_var` with the
per-range cell-count ceilings (`MIN` against `safe_mul` bounds). -/
def Subarray.computeEstResultSizeRange (s : Subarray) (t : Datatype)
    (attrName : String) (rangeIdx : Nat) (varSize : Bool) : ResultSize :=
  let base := s.estAccum attrName rangeIdx varSize
  let cn := s.cellNum t rangeIdx
  let maxSizeFixed :=
    if varSize then safeMul cn cellVarOffsetSize
    else safeMul cn (s.schema.cellSize attrName)
  let maxSizeVar := U64MAX
  { base with
    size_fixed := min base.size_fixed (maxSizeFixed : ℚ)
    size_var := min base.size_var (maxSizeVar : ℚ) }

/-- Componentwise sum of two accumulators (the mutex-guarded `+=` block of
`compute_est_result_size<T>`). -/
def rsAdd (a b : ResultSize) : ResultSize :=
  ⟨a.size_fixed + b.size_fixed, a.size_var + b.size_var,
   a.mem_size_fixed + b.mem_size_fixed, a.mem_size_var + b.mem_size_var⟩

/-- `Subarray::compute_tile_overlap<T>`: recompute the range offsets (whose
`assert(false)` on an unsupported effective layout is modelled as an internal
error), then fill `tile_overlap_[f][r]` from each fragment's R-tree, and set
the ready flag.  The `(f, r)` tasks are independent, so the parallel dispatch
of the source equals this deterministic tabulation. -/
def Subarray.computeTileOverlapT (s : Subarray) (_t : Datatype) :
    Except SubErr Unit × Subarray :=
  if s.tileOverlapComputed then (Except.ok (), s)
  else
    match s.computeRangeOffsets with
    | none => (Except.error SubErr.internal, s)
    | some offs =>
      let s1 := { s with rangeOffsets := offs }
      let overlap := s1.fragments.map (fun m =>
        (List.range s1.rangeNum).map (fun j => m.rtreeOverlap ((s1.rangeAt j).getD [])))
      (Except.ok (), { s1 with tileOverlap := overlap, tileOverlapComputed := true })

/-- `Subarray::compute_est_result_size<T>` (whole-subarray version): compute
tile overlap, sum the per-range estimates for every attribute plus the
synthetic `coords` entry (the mutex-guarded parallel accumulation is
order-independent, hence this fold), amplify the `size_*` components, and
store the map.  `amp` is `constants::est_result_size_amplification`. -/
def Subarray.computeEstResultSizeT (s : Subarray) (t : Datatype) (amp : ℚ) :
    Except SubErr Unit × Subarray :=
  if s.resultEstSizeComputed then (Except.ok (), s)
  else
    match s.computeTileOverlapT t with
    | (Except.error e, s1) => (Except.error e, s1)
    | (Except.ok _, s1) =>
      let attrPairs := s1.schema.attrs.map (fun a => (a.name, a.varSize))
          ++ [(coordsName, false)]
      let vec := attrPairs.map (fun p =>
        (p.1, (List.range s1.rangeNum).foldl
          (fun acc i => rsAdd acc (s1.computeEstResultSizeRange t p.1 i p.2))
          ⟨0, 0, 0, 0⟩))
      let vec2 :=
        if amp ≠ 1 then
          vec.map (fun p => (p.1,
            { p.2 with size_fixed := p.2.size_fixed * amp, size_var := p.2.size_var * amp }))
        else vec
      (Except.ok (), { s1 with estResultSize := vec2, resultEstSizeComputed := true })

/-- The non-template `Subarray::compute_est_result_size()`: return early when
already computed, dispatch on the domain type, reject unsupported types. -/
def Subarray.computeEstResultSizeDispatch (s : Subarray) (amp : ℚ) :
    Except SubErr Unit × Subarray :=
  if s.resultEstSizeComputed then (Except.ok (), s)
  else
    match s.schema.domType with
    | Datatype.other => (Except.error SubErr.unsupportedType, s)
    | t => s.computeEstResultSizeT t amp

/-- Read of `est_result_size_[attr_name]`: a missing key value-initializes to
all zeros (`std::map::operator[]`). -/
def lookupRS (m : List (String × ResultSize)) (k : String) : ResultSize :=
  ((m.find? (fun p => p.1 = k)).map (fun p => p.2)).getD ⟨0, 0, 0, 0⟩

/-- `Subarray::get_est_result_size(attr_name, size)` (fixed-sized form).
`attrName = none` models a null name pointer and `sizePtrOk = false` a null
output pointer.  The attribute-existence and fixed-sized checks are both
guarded by `attr_name != constants::coords`. -/
def Subarray.getEstResultSizeFixed (s : Subarray) (amp : ℚ)
    (attrName : Option String) (sizePtrOk : Bool) : Except SubErr Nat × Subarray :=
  if s.schema.dense then (Except.error SubErr.denseNotSupported, s)
  else
    match attrName with
    | none => (Except.error SubErr.invalidAttribute, s)
    | some nm =>
      let attr := s.schema.attribute nm
      if nm ≠ coordsName ∧ attr = none then (Except.error SubErr.invalidAttribute, s)
      else if !sizePtrOk then (Except.error SubErr.invalidSizeInput, s)
      else if nm ≠ coordsName ∧ ((attr.map Attr.varSize).getD false) = true then
        (Except.error SubErr.mustBeFixedSized, s)
      else
        match s.computeEstResultSizeDispatch amp with
        | (Except.error e, s1) => (Except.error e, s1)
        | (Except.ok _, s1) =>
          (Except.ok (qceil (lookupRS s1.estResultSize nm).size_fixed), s1)

/-- `Subarray::get_est_result_size(attr_name, size_off, size_val)` (var-sized
form): the attribute must exist in the schema (no `coords` exemption) and be
var-sized. -/
def Subarray.getEstResultSizeVar (s : Subarray) (amp : ℚ)
    (attrName : Option String) (sizePtrOk : Bool) :
    Except SubErr (Nat × Nat) × Subarray :=
  if s.schema.dense then (Except.error SubErr.denseNotSupported, s)
  else
    match attrName with
    | none => (Except.error SubErr.invalidAttribute, s)
    | some nm =>
      match s.schema.attribute nm with
      | none => (Except.error SubErr.invalidAttribute, s)
      | some attr =>
        if !sizePtrOk then (Except.error SubErr.invalidSizeInput, s)
        else if !attr.varSize then (Except.error SubErr.mustBeVarSized, s)
        else
          match s.computeEstResultSizeDispatch amp with
          | (Except.error e, s1) => (Except.error e, s1)
          | (Except.ok _, s1) =>
            (Except.ok (qceil (lookupRS s1.estResultSize nm).size_fixed,
                        qceil (lookupRS s1.estResultSize nm).size_var), s1)

/-- `Subarray::get_max_memory_size(attr_name, size)` (fixed form): same checks
as the fixed estimate getter, but the status of `compute_est_result_size()` is
discarded and the call returns `Ok` with the map entry regardless. -/
def Subarray.getMaxMemorySizeFixed (s : Subarray) (amp : ℚ)
    (attrName : Option String) (sizePtrOk : Bool) : Except SubErr Nat × Subarray :=
  if s.schema.dense then (Except.error SubErr.denseNotSupported, s)
  else
    match attrName with
    | none => (Except.error SubErr.invalidAttribute, s)
    | some nm =>
      let attr := s.schema.attribute nm
      if nm ≠ coordsName ∧ attr = none then (Except.error SubErr.invalidAttribute, s)
      else if !sizePtrOk then (Except.error SubErr.invalidSizeInput, s)
      else if nm ≠ coordsName ∧ ((attr.map Attr.varSize).getD false) = true then
        (Except.error SubErr.mustBeFixedSized, s)
      else
        let p := s.computeEstResultSizeDispatch amp
        (Except.ok (qceil (lookupRS p.2.estResultSize nm).mem_size_fixed), p.2)

/-- `Subarray::get_max_memory_size(attr_name, size_off, size_val)` (var form):
same checks as the var estimate getter, status of the estimation discarded. -/
def Subarray.getMaxMemorySizeVar (s : Subarray) (amp : ℚ)
    (attrName : Option String) (sizePtrOk : Bool) :
    Except SubErr (Nat × Nat) × Subarray :=
  if s.schema.dense then (Except.error SubErr.denseNotSupported, s)
  else
    match attrName with
    | none => (Except.error SubErr.invalidAttribute, s)
    | some nm =>
      match s.schema.attribute nm with
      | none => (Except.error SubErr.invalidAttribute, s)
      | some attr =>
        if !sizePtrOk then (Except.error SubErr.invalidSizeInput, s)
        else if !attr.varSize then (Except.error SubErr.mustBeVarSized, s)
        else
          let p := s.computeEstResultSizeDispatch amp
          (Except.ok (qceil (lookupRS p.2.estResultSize nm).mem_size_fixed,
                      qceil (lookupRS p.2.estResultSize nm).mem_size_var), p.2)

/-- Status of an incremental read query after a submission. -/
inductive QueryStatus where
  | completed | incomplete
  deriving DecidableEq

/-- Error kind of the read-query buffer-reset protocol. -/
inductive QueryErr where
  | invalidBufferSize
  deriving DecidableEq

/-- Modelled from the spec (§4.5): the read-query state visible to the
buffer-reset protocol (the query engine itself is not among the sources; only
its C-API test `unit-capi-incomplete.cc` is).  `result` is the full result
stream of the bound subarray in emission order, `cursor` the resumption
cursor, `origCaps`/`caps` the original and current per-buffer byte
capacities. -/
structure ReadQuery where
  result : List Int
  cellSize : Nat
  origCaps : List Nat
  caps : List Nat
  cursor : Nat
  deriving DecidableEq

/-- Modelled from the spec (§4.5 Buffer reset): every advertised capacity must
be at least the original capacity of its buffer, else the call fails with
`InvalidBufferSize`; a reset never moves the cursor. -/
def ReadQuery.resetBuffers (q : ReadQuery) (newCaps : List Nat) :
    Except QueryErr ReadQuery :=
  if newCaps.length = q.origCaps.length
      ∧ (List.zip newCaps q.origCaps).all (fun p => p.2 ≤ p.1) then
    Except.ok { q with caps := newCaps }
  else Except.error QueryErr.invalidBufferSize

/-- Modelled from the spec (§4.5 Submission semantics, scenario S1/S4): a
submission over a single fixed-sized attribute buffer emits as many whole
cells as fit from the resumption cursor, advances the cursor past them, and
reports `COMPLETED` exactly when the stream is drained. -/
def ReadQuery.submit (q : ReadQuery) : (List Int × QueryStatus) × ReadQuery :=
  let capCells := q.caps.getD 0 0 / q.cellSize
  let emitted := (q.result.drop q.cursor).take capCells
  let q1 := { q with cursor := q.cursor + emitted.length }
  ((emitted, if q.result.length ≤ q1.cursor then QueryStatus.completed
             else QueryStatus.incomplete), q1)

/-! ### Ghost (proof-side) definitions -/

/-- Suffix products: `suffixProds [n0, …, nk]` has `∏_{j>i} nj` at position
`i`.  These are the exact row-major strides. -/
def suffixProds : List Nat → List Nat
  | [] => []
  | _ :: cs => cs.prod :: suffixProds cs

/-- Pointwise validity of a coordinate vector against per-dimension counts. -/
def validCoordsB : List Nat → List Nat → Bool
  | [], [] => true
  | x :: xs, n :: ns => decide (x < n) && validCoordsB xs ns
  | _, _ => false

/-- Exact product of the per-dimension widths `hi - lo + 1` of a selected
range vector. -/
def widthsProd (rs : List (Val × Val)) : Nat :=
  (rs.map (fun r => (r.2.num - r.1.num).toNat + 1)).prod

/-- Sum of a list of `ResultSize` accumulators. -/
def rsSum : List ResultSize → ResultSize
  | [] => ⟨0, 0, 0, 0⟩
  | a :: l => rsAdd a (rsSum l)

/-! ### Concrete states used by witnesses and counterexamples -/

/-- A non-NaN scalar value. -/
def iv (n : Int) : Val := ⟨n, false⟩

/-- A range store holding `2^32` copies of the point range `[0, 0]`. -/
def bigStore : RangeStore := ⟨List.replicate (2 ^ 32) (iv 0, iv 0), false⟩

/-- A range store with exactly two ranges. -/
def twoStore : RangeStore := ⟨[(iv 0, iv 0), (iv 0, iv 0)], false⟩

/-- A range store with exactly three ranges. -/
def threeStore : RangeStore := ⟨[(iv 0, iv 0), (iv 0, iv 1), (iv 2, iv 2)], false⟩

/-- A plain sparse `uint64` schema with `d` dimensions. -/
def schemaU64 (d : Nat) : ArraySchema :=
  ⟨d, List.replicate d (iv 0, iv (2 ^ 63)), Datatype.uint64, Layout.rowMajor,
   [], false, fun _ => 8⟩

/-- Counterexample state for claim C1: three dimensions with `2 · 2^32 · 2^32`
ranges, whose row-major offsets wrap to `[0, 2^32, 1]`. -/
def sC1x : Subarray :=
  ⟨schemaU64 3, Layout.rowMajor, [], [twoStore, bigStore, bigStore],
   [0, 2 ^ 32, 1], [], [], false, false⟩

/-- Witness state for claim C1: two dimensions with `2 × 3` ranges and
row-major offsets `[3, 1]`. -/
def sC1w : Subarray :=
  ⟨schemaU64 2, Layout.rowMajor, [], [twoStore, threeStore],
   [3, 1], [], [], false, false⟩

/-- A 1-dimensional sparse `int32` schema with domain `[0, 10]`. -/
def schemaI32 : ArraySchema :=
  ⟨1, [(iv 0, iv 10)], Datatype.int32, Layout.rowMajor, [], false, fun _ => 4⟩

/-- State for claim C2: one `int32` dimension, both ready flags set. -/
def sC2 : Subarray :=
  ⟨schemaI32, Layout.rowMajor, [], [⟨[(iv 0, iv 10)], true⟩],
   [1], [], [], true, true⟩

/-- Witness state for claim C3: one `int32` dimension holding the single
non-unary range `[1, 3]`, offsets computed. -/
def sC3 : Subarray :=
  ⟨schemaI32, Layout.rowMajor, [], [⟨[(iv 1, iv 3)], false⟩],
   [1], [], [], false, false⟩

/-- Witness state for claim C4. -/
def sC4 : Subarray :=
  ⟨schemaI32, Layout.rowMajor, [], [⟨[(iv 2, iv 2)], false⟩],
   [1], [], [], false, false⟩

/-- Counterexample state for claim C5: two dimensions of `2^32` ranges each;
the true range count `2^64` wraps to `0`. -/
def sC5 : Subarray :=
  ⟨schemaU64 2, Layout.rowMajor, [], [bigStore, bigStore],
   [], [], [], false, false⟩

/-- Witness state for claim C5: range counts `2` and `3`. -/
def sC5w : Subarray :=
  ⟨schemaU64 2, Layout.rowMajor, [], [twoStore, threeStore],
   [], [], [], false, false⟩

/-- Witness fragment for claim C6: constant tile sizes 10 (fixed) and 20
(var). -/
def fragC6 : FragmentMeta :=
  ⟨fun _ _ => 10, fun _ _ => 20, fun _ => ⟨[], []⟩⟩

/-- Witness state for claim C6: one fragment whose single-range overlap has
one fully-covered interval `[0, 1]` and one half-covered tile. -/
def sC6 : Subarray :=
  ⟨schemaU64 1, Layout.rowMajor, [fragC6], [⟨[(iv 0, iv 4)], true⟩],
   [1], [[⟨[(0, 1)], [(2, (1 : ℚ) / 2)]⟩]], [], false, false⟩

/-- Counterexample state for claim C7: a subarray with `global_order` layout. -/
def sC7 : Subarray :=
  ⟨schemaI32, Layout.globalOrder, [], [⟨[(iv 0, iv 10)], true⟩],
   [], [], [], false, false⟩

/-- The S4 read query of the spec: result stream `[0,1,2,3]` of 4-byte cells
into a single buffer of original capacity 8 bytes (2 cells). -/
def qS4 : ReadQuery := ⟨[0, 1, 2, 3], 4, [8], [8], 0⟩

/-- Witness schema for claim C9: one fixed-sized attribute `a1`. -/
def schemaC9 : ArraySchema :=
  ⟨1, [(iv 0, iv 10)], Datatype.int32, Layout.rowMajor, [⟨"a1", false⟩],
   false, fun _ => 4⟩

/-- Witness state for claim C9. -/
def sC9 : Subarray :=
  ⟨schemaC9, Layout.rowMajor, [], [⟨[(iv 0, iv 10)], true⟩],
   [1], [], [], false, false⟩

/-- Witness schema for claim C10: unsupported domain type, one var-sized
attribute `a2`. -/
def schemaC10 : ArraySchema :=
  ⟨1, [(iv 0, iv 10)], Datatype.other, Layout.rowMajor, [⟨"a2", true⟩],
   false, fun _ => 4⟩

/-- Witness state for claim C10. -/
def sC10 : Subarray :=
  ⟨schemaC10, Layout.rowMajor, [], [⟨[(iv 0, iv 10)], true⟩],
   [1], [], [], false, false⟩

/-! ### Helper lemmas -/

theorem foldl_mulmod (l : List Nat) : ∀ a : Nat,
    l.foldl (fun acc c => acc * c % M64) (a % M64) = a * l.prod % M64 := by
  induction l with
  | nil => intro a; simp
  | cons c cs ih =>
    intro a
    simp only [List.foldl_cons, List.prod_cons]
    rw [Nat.mod_mul_mod, ih (a * c), mul_assoc]

theorem rangeNum_eq_prod_mod (s : Subarray) (h : s.ranges ≠ []) :
    s.rangeNum = s.rangeCounts.prod % M64 := by
  have h1 : s.ranges.isEmpty = false := by
    cases hr : s.ranges with
    | nil => exact absurd hr h
    | cons a l => rfl
  have h2 : (1 : Nat) = 1 % M64 := by decide
  rw [Subarray.rangeNum, h1]
  simp only [Bool.false_eq_true, if_false]
  rw [h2, foldl_mulmod, one_mul]

theorem rangeNum_lt_M64 (s : Subarray) : s.rangeNum < M64 := by
  cases hr : s.ranges with
  | nil =>
    have h0 : s.rangeNum = 0 := by rw [Subarray.rangeNum, hr]; rfl
    rw [h0]; decide
  | cons a l =>
    rw [rangeNum_eq_prod_mod s (by rw [hr]; exact List.cons_ne_nil a l)]
    exact Nat.mod_lt _ (by decide)

/-! ### Claim C4 -/

/-- Claim C4: `is_unary()` returns true iff the total range count is `1` and
on every dimension the first stored range has byte-equal `lo` and `hi`
bounds. -/
theorem claim_C4_is_unary (s : Subarray) :
    s.isUnary = true ↔
      (s.rangeNum = 1 ∧ ∀ st ∈ s.ranges,
        (st.ranges.getD 0 default).1 = (st.ranges.getD 0 default).2) := by
  by_cases h : s.rangeNum = 1
  · simp [Subarray.isUnary, h, List.all_eq_true]
  · simp [Subarray.isUnary, h]

/-! ### Claim C5 -/

/-- Claim C5 counterexample: with per-dimension range counts `2^32` and
`2^32` the true product is `2^64`, but `range_num()` wraps to `0` instead of
saturating to `UINT64_MAX` — and is not equal to the product either. -/
theorem claim_C5_counterexample :
    sC5.rangeNum = 0 ∧ sC5.rangeCounts.prod = 2 ^ 64 ∧
    sC5.rangeNum ≠ min sC5.rangeCounts.prod U64MAX ∧
    sC5.rangeNum ≠ sC5.rangeCounts.prod := by
  have hb : bigStore.ranges.length = 2 ^ 32 := by
    rw [show bigStore.ranges = List.replicate (2 ^ 32) (iv 0, iv 0) from rfl,
        List.length_replicate]
  have hc : sC5.rangeCounts = [2 ^ 32, 2 ^ 32] := by
    rw [show sC5.rangeCounts = [bigStore.ranges.length, bigStore.ranges.length] from rfl, hb]
  have hp : sC5.rangeCounts.prod = 2 ^ 64 := by rw [hc]; norm_num
  have h0 : sC5.rangeNum = 0 := by
    rw [rangeNum_eq_prod_mod sC5
        (by rw [show sC5.ranges = [bigStore, bigStore] from rfl]
            exact List.cons_ne_nil _ _), hp]
    decide
  exact ⟨h0, hp, by rw [h0, hp]; decide, by rw [h0, hp]; decide⟩

/-- Claim C5 amended: `range_num()` equals the product of the per-dimension
range counts reduced modulo `2^64` (wrapping `uint64_t` multiplication, not
saturating); in particular it equals the exact product whenever that product
fits in a `u64`. -/
theorem claim_C5_range_num (s : Subarray) (h : s.ranges ≠ []) :
    s.rangeNum = s.rangeCounts.prod % M64 ∧
    (s.rangeCounts.prod < M64 → s.rangeNum = s.rangeCounts.prod) := by
  refine ⟨rangeNum_eq_prod_mod s h, fun hlt => ?_⟩
  rw [rangeNum_eq_prod_mod s h, Nat.mod_eq_of_lt hlt]

/-- Claim C5 witness: the amended statement evaluated on a concrete subarray
with range counts `2` and `3`. -/
theorem claim_C5_witness :
    sC5w.ranges ≠ [] ∧
    (sC5w.rangeNum = sC5w.rangeCounts.prod % M64 ∧
     (sC5w.rangeCounts.prod < M64 → sC5w.rangeNum = sC5w.rangeCounts.prod)) :=
  ⟨by decide, claim_C5_range_num sC5w (by decide)⟩

/-! ### Claim C8 -/

/-- Claim C8: `reset_buffers` succeeds on any capacity vector that is
pointwise at least the original capacities, fails with `InvalidBufferSize` on
any vector with a component strictly below its original capacity — in both
cases leaving the resumption cursor untouched — and after a successful reset
resubmission continues from the cursor: scenario S4 suspends with `[0, 1]`,
rejects a shrunk buffer, accepts the original capacity, and completes with
the remaining cells `[2, 3]`. -/
theorem claim_C8_reset_buffers (q : ReadQuery) (newCaps lowCaps : List Nat)
    (hlen : newCaps.length = q.origCaps.length)
    (hok : ∀ p ∈ List.zip newCaps q.origCaps, p.2 ≤ p.1)
    (hlow : ∃ p ∈ List.zip lowCaps q.origCaps, p.1 < p.2) :
    q.resetBuffers newCaps = Except.ok { q with caps := newCaps } ∧
    q.resetBuffers lowCaps = Except.error QueryErr.invalidBufferSize ∧
    (qS4.submit.1 = ([0, 1], QueryStatus.incomplete) ∧
     qS4.submit.2.cursor = 2 ∧
     qS4.submit.2.resetBuffers [4] = Except.error QueryErr.invalidBufferSize ∧
     qS4.submit.2.resetBuffers [8] = Except.ok qS4.submit.2 ∧
     qS4.submit.2.submit.1 = ([2, 3], QueryStatus.completed)) := by
  refine ⟨?_, ?_, by decide, by decide, rfl, rfl, by decide⟩
  · rw [ReadQuery.resetBuffers, if_pos]
    exact ⟨hlen, List.all_eq_true.mpr (fun p hp => decide_eq_true (hok p hp))⟩
  · rw [ReadQuery.resetBuffers, if_neg]
    intro hcon
    obtain ⟨p, hp, hlt⟩ := hlow
    have h2 := List.all_eq_true.mp hcon.2 p hp
    exact absurd (of_decide_eq_true h2) (Nat.not_le_of_lt hlt)

/-- Claim C8 witness: the reset protocol evaluated on the concrete S4 query,
growing to `[8]` and shrinking to `[4]`. -/
theorem claim_C8_witness :
    ([8] : List Nat).length = qS4.origCaps.length ∧
    (∀ p ∈ List.zip [8] qS4.origCaps, p.2 ≤ p.1) ∧
    (∃ p ∈ List.zip [4] qS4.origCaps, p.1 < p.2) ∧
    (qS4.resetBuffers [8] = Except.ok { qS4 with caps := [8] } ∧
     qS4.resetBuffers [4] = Except.error QueryErr.invalidBufferSize ∧
     (qS4.submit.1 = ([0, 1], QueryStatus.incomplete) ∧
      qS4.submit.2.cursor = 2 ∧
      qS4.submit.2.resetBuffers [4] = Except.error QueryErr.invalidBufferSize ∧
      qS4.submit.2.resetBuffers [8] = Except.ok qS4.submit.2 ∧
      qS4.submit.2.submit.1 = ([2, 3], QueryStatus.completed))) :=
  ⟨by decide, by decide, by decide,
   claim_C8_reset_buffers qS4 [8] [4] (by decide) (by decide) (by decide)⟩

/-! ### Claim C7 -/

/-- Claim C7 counterexample: a `global_order` subarray reaches the
`assert(false)` branch of both `compute_range_offsets` and
`get_range_coords` instead of being treated as row-major. -/
theorem claim_C7_counterexample :
    sC7.layout = Layout.globalOrder ∧
    sC7.computeRangeOffsets = none ∧
    sC7.getRangeCoords 0 = none ∧
    sC7.computeRangeOffsets ≠ ({ sC7 with layout := Layout.rowMajor } : Subarray).computeRangeOffsets := by
  refine ⟨rfl, rfl, rfl, ?_⟩
  intro h
  exact Option.noConfusion (h.trans rfl)

/-- Claim C7 amended: for row-major and col-major effective layouts the
offset computation and the index-to-coordinates conversion succeed;
`unordered` is replaced by the array's cell order; but a `global_order`
layout reaches the internal `unreachable layout` assertion in both
functions. -/
theorem claim_C7_layouts (s : Subarray) :
    (s.effLayout = Layout.rowMajor ∨ s.effLayout = Layout.colMajor →
      s.computeRangeOffsets.isSome = true ∧
      ∀ idx, (s.getRangeCoords idx).isSome = true) ∧
    (s.layout = Layout.unordered → s.effLayout = s.schema.cellOrder) ∧
    (s.layout = Layout.globalOrder →
      s.computeRangeOffsets = none ∧ ∀ idx, s.getRangeCoords idx = none) := by
  refine ⟨fun h => ?_, fun h => ?_, fun h => ?_⟩
  · rcases h with h | h <;>
      simp [Subarray.computeRangeOffsets, Subarray.getRangeCoords, h]
  · rw [Subarray.effLayout, if_pos h]
  · have he : s.effLayout = Layout.globalOrder := by
      rw [Subarray.effLayout, h, if_neg]
      intro hcon
      exact Layout.noConfusion hcon
    simp [Subarray.computeRangeOffsets, Subarray.getRangeCoords, he]

/-- Claim C7 witness: the amended statement applied to a concrete
`global_order` subarray and to its row-major variant. -/
theorem claim_C7_witness :
    (({ sC7 with layout := Layout.rowMajor } : Subarray).computeRangeOffsets.isSome = true) ∧
    (sC7.computeRangeOffsets = none ∧ ∀ idx, sC7.getRangeCoords idx = none) :=
  ⟨((claim_C7_layouts { sC7 with layout := Layout.rowMajor }).1 (Or.inl rfl)).1,
   (claim_C7_layouts sC7).2.2 rfl⟩

/-! ### Claim C2 -/

/-- Claim C2 counterexample: on a subarray whose `est_size_ready` and
`overlap_ready` flags are set, `add_range` with the invalid bounds `[5, 3]`
returns an error and appends nothing, but the two flags do not keep their
prior values — they are cleared before validation. -/
theorem claim_C2_counterexample :
    (sC2.addRange 0 (some (iv 5, iv 3))).1 = Except.error SubErr.invalidBounds ∧
    sC2.resultEstSizeComputed = true ∧ sC2.tileOverlapComputed = true ∧
    (sC2.addRange 0 (some (iv 5, iv 3))).2.resultEstSizeComputed = false ∧
    (sC2.addRange 0 (some (iv 5, iv 3))).2.tileOverlapComputed = false ∧
    (sC2.addRange 0 (some (iv 5, iv 3))).2.ranges = sC2.ranges :=
  ⟨rfl, rfl, rfl, rfl, rfl, rfl⟩

/-- Claim C2 amended: every invalid `add_range` input (null range, dimension
index out of bounds, NaN bound, `lo > hi`, or range outside the dimension
domain) is rejected with an error and appends no range — the range lists,
offsets, overlap and estimate caches are unchanged — but only the null-range,
invalid-dimension and unsupported-type errors leave the whole state
unchanged; the typed validation errors additionally clear `est_size_ready`
and `overlap_ready`, which therefore do not keep their prior values in
general. -/
theorem claim_C2_add_range_errors (s : Subarray) (d : Nat) (r : Option (Val × Val))
    (hinv : r = none ∨ s.schema.dimNum ≤ d ∨
      (∃ v, r = some v ∧
        (checkNan s.schema.domType v = true ∨ v.2.num < v.1.num ∨
         v.1.num < (s.schema.domain.getD d default).1.num ∨
         (s.schema.domain.getD d default).2.num < v.2.num))) :
    (∃ e, (s.addRange d r).1 = Except.error e) ∧
    (s.addRange d r).2.ranges = s.ranges ∧
    (s.addRange d r).2.rangeOffsets = s.rangeOffsets ∧
    (s.addRange d r).2.tileOverlap = s.tileOverlap ∧
    (s.addRange d r).2.estResultSize = s.estResultSize ∧
    ((s.addRange d r).2 = s ∨
     (s.addRange d r).2 =
       { s with resultEstSizeComputed := false, tileOverlapComputed := false }) ∧
    ((r = none ∨ s.schema.dimNum ≤ d ∨ s.schema.domType = Datatype.other) →
      (s.addRange d r).2 = s) := by
  rcases r with _ | v
  · exact ⟨⟨SubErr.nullRange, rfl⟩, rfl, rfl, rfl, rfl, Or.inl rfl, fun _ => rfl⟩
  by_cases hd : s.schema.dimNum ≤ d
  · have hred : s.addRange d (some v) = (Except.error SubErr.invalidDim, s) := by
      simp only [Subarray.addRange]
      rw [if_pos hd]
    rw [hred]
    exact ⟨⟨SubErr.invalidDim, rfl⟩, rfl, rfl, rfl, rfl, Or.inl rfl, fun _ => rfl⟩
  by_cases ht : s.schema.domType = Datatype.other
  · have hred : s.addRange d (some v) = (Except.error SubErr.unsupportedType, s) := by
      simp only [Subarray.addRange]
      rw [if_neg hd, if_pos ht]
    rw [hred]
    exact ⟨⟨SubErr.unsupportedType, rfl⟩, rfl, rfl, rfl, rfl, Or.inl rfl, fun _ => rfl⟩
  have hstep : s.addRange d (some v) = s.addRangeT d v := by
    simp only [Subarray.addRange]
    rw [if_neg hd, if_neg ht]
  rw [hstep]
  by_cases hnan : checkNan s.schema.domType v = true
  · have hred : s.addRangeT d v = (Except.error SubErr.nanRange,
        { s with resultEstSizeComputed := false, tileOverlapComputed := false }) := by
      simp only [Subarray.addRangeT]
      rw [if_pos hnan]
    rw [hred]
    refine ⟨⟨SubErr.nanRange, rfl⟩, rfl, rfl, rfl, rfl, Or.inr rfl, fun h => ?_⟩
    rcases h with h | h | h
    · exact Option.noConfusion h
    · exact absurd h hd
    · exact absurd h ht
  by_cases hlt : v.2.num < v.1.num
  · have hred : s.addRangeT d v = (Except.error SubErr.invalidBounds,
        { s with resultEstSizeComputed := false, tileOverlapComputed := false }) := by
      simp only [Subarray.addRangeT]
      rw [if_neg hnan, if_pos hlt]
    rw [hred]
    refine ⟨⟨SubErr.invalidBounds, rfl⟩, rfl, rfl, rfl, rfl, Or.inr rfl, fun h => ?_⟩
    rcases h with h | h | h
    · exact Option.noConfusion h
    · exact absurd h hd
    · exact absurd h ht
  by_cases hdomc : (v.1.num < (s.schema.domain.getD d default).1.num ∨
      (s.schema.domain.getD d default).2.num < v.2.num)
  · have hred : s.addRangeT d v = (Except.error SubErr.outOfDomain,
        { s with resultEstSizeComputed := false, tileOverlapComputed := false }) := by
      simp only [Subarray.addRangeT]
      rw [if_neg hnan, if_neg hlt, if_pos]
      simp only [decide_eq_true_eq, Bool.or_eq_true]
      exact hdomc
    rw [hred]
    refine ⟨⟨SubErr.outOfDomain, rfl⟩, rfl, rfl, rfl, rfl, Or.inr rfl, fun h => ?_⟩
    rcases h with h | h | h
    · exact Option.noConfusion h
    · exact absurd h hd
    · exact absurd h ht
  exfalso
  rcases hinv with h | h | ⟨v', hv', hcase⟩
  · exact Option.noConfusion h
  · exact absurd h hd
  · have hvv : v' = v := Option.some.inj hv'.symm
    subst hvv
    rcases hcase with h | h | h | h
    · exact absurd h hnan
    · exact absurd h hlt
    · exact hdomc (Or.inl h)
    · exact hdomc (Or.inr h)

/-! ### Claim C1: dot-product and digit-extraction lemmas -/

theorem exactDot_nil_left (cs : List Nat) : exactDot [] cs = 0 := by
  simp [exactDot]

theorem exactDot_nil_right (os : List Nat) : exactDot os [] = 0 := by
  simp [exactDot]

theorem exactDot_cons (o c : Nat) (os cs : List Nat) :
    exactDot (o :: os) (c :: cs) = o * c + exactDot os cs := by
  simp [exactDot]

theorem wrapDot_eq_exact : ∀ (os cs : List Nat) (acc : Nat),
    acc + exactDot os cs < M64 → wrapDot os cs acc = acc + exactDot os cs := by
  intro os
  induction os with
  | nil =>
    intro cs acc _
    rw [exactDot_nil_left, Nat.add_zero]
    cases cs <;> rfl
  | cons o os ih =>
    intro cs acc h
    cases cs with
    | nil =>
      rw [exactDot_nil_right, Nat.add_zero]
      rfl
    | cons c cs =>
      rw [exactDot_cons] at h
      have hoc : o * c < M64 :=
        Nat.lt_of_le_of_lt (Nat.le_add_right _ _)
          (Nat.lt_of_le_of_lt (Nat.le_add_left _ _) h)
      have hacc : acc + o * c < M64 :=
        Nat.lt_of_le_of_lt (by omega) h
      have hw : wrapDot (o :: os) (c :: cs) acc
          = wrapDot os cs ((acc + o * c % M64) % M64) := rfl
      rw [hw, Nat.mod_eq_of_lt hoc, Nat.mod_eq_of_lt hacc,
          ih cs (acc + o * c) (by omega), exactDot_cons]
      omega

theorem divModScan_length : ∀ (os : List Nat) (tmp : Nat),
    (divModScan tmp os).length = os.length := by
  intro os
  induction os with
  | nil => intro tmp; rfl
  | cons o os ih =>
    intro tmp
    rw [divModScan, List.length_cons, List.length_cons, ih]

theorem finalRem_le : ∀ (os : List Nat) (tmp : Nat), finalRem tmp os ≤ tmp := by
  intro os
  induction os with
  | nil => intro tmp; exact le_refl tmp
  | cons o os ih =>
    intro tmp
    exact Nat.le_trans (ih (tmp % o)) (Nat.mod_le tmp o)

theorem exactDot_divModScan : ∀ (os : List Nat) (tmp : Nat),
    exactDot os (divModScan tmp os) = tmp - finalRem tmp os := by
  intro os
  induction os with
  | nil => intro tmp; rw [exactDot_nil_left, finalRem, Nat.sub_self]
  | cons o os ih =>
    intro tmp
    rw [divModScan, exactDot_cons, finalRem, ih (tmp % o)]
    calc o * (tmp / o) + (tmp % o - finalRem (tmp % o) os)
        = o * (tmp / o) + tmp % o - finalRem (tmp % o) os :=
          (Nat.add_sub_assoc (finalRem_le os (tmp % o)) _).symm
      _ = tmp - finalRem (tmp % o) os := by rw [Nat.div_add_mod]

theorem finalRem_append : ∀ (l1 l2 : List Nat) (tmp : Nat),
    finalRem tmp (l1 ++ l2) = finalRem (finalRem tmp l1) l2 := by
  intro l1
  induction l1 with
  | nil => intro l2 tmp; rfl
  | cons o l1 ih =>
    intro l2 tmp
    rw [List.cons_append, finalRem, ih, finalRem]

theorem finalRem_last_one (l : List Nat) (tmp : Nat) :
    finalRem tmp (l ++ [1]) = 0 := by
  rw [finalRem_append, finalRem, finalRem, Nat.mod_one]

theorem roundTrip_of_last_one (os : List Nat) (tmp : Nat) (l : List Nat)
    (hos : os = l ++ [1]) (htmp : tmp < M64) :
    wrapDot os (divModScan tmp os) 0 = tmp := by
  have hdot : exactDot os (divModScan tmp os) = tmp := by
    rw [exactDot_divModScan, hos, finalRem_last_one, Nat.sub_zero]
  rw [wrapDot_eq_exact _ _ 0 (by rw [Nat.zero_add, hdot]; exact htmp),
      Nat.zero_add, hdot]

theorem exactDot_append (l1 l2 l3 l4 : List Nat) (h : l1.length = l3.length) :
    exactDot (l1 ++ l2) (l3 ++ l4) = exactDot l1 l3 + exactDot l2 l4 := by
  unfold exactDot
  rw [List.zipWith_append _ _ _ _ _ h, List.sum_append]

theorem exactDot_reverse : ∀ (os cs : List Nat), os.length = cs.length →
    exactDot os.reverse cs.reverse = exactDot os cs := by
  intro os
  induction os with
  | nil => intro cs _; rfl
  | cons o os ih =>
    intro cs hlen
    cases cs with
    | nil => exact absurd hlen (by simp)
    | cons c cs =>
      rw [List.reverse_cons, List.reverse_cons,
          exactDot_append os.reverse [o] cs.reverse [c]
            (by rw [List.length_reverse, List.length_reverse]
                exact Nat.succ_injective hlen),
          ih cs (Nat.succ_injective hlen), exactDot_cons, exactDot_cons,
          exactDot_nil_left]
      ring

theorem roundTrip_col (os : List Nat) (tmp : Nat) (l : List Nat)
    (hos : os = 1 :: l) (htmp : tmp < M64) :
    wrapDot os ((divModScan tmp os.reverse).reverse) 0 = tmp := by
  have hlen : os.length = ((divModScan tmp os.reverse).reverse).length := by
    rw [List.length_reverse, divModScan_length, List.length_reverse]
  have hd1 : exactDot os ((divModScan tmp os.reverse).reverse)
      = exactDot os.reverse (divModScan tmp os.reverse) := by
    have h := exactDot_reverse os ((divModScan tmp os.reverse).reverse) hlen
    rw [List.reverse_reverse] at h
    exact h.symm
  have hrem : finalRem tmp os.reverse = 0 := by
    rw [hos, List.reverse_cons, finalRem_last_one]
  have hdot : exactDot os.reverse (divModScan tmp os.reverse) = tmp := by
    rw [exactDot_divModScan, hrem, Nat.sub_zero]
  rw [wrapDot_eq_exact _ _ 0 (by rw [Nat.zero_add, hd1, hdot]; exact htmp),
      Nat.zero_add, hd1, hdot]

/-! ### Claim C1: stride characterization under no overflow -/

theorem plainScan_append (c : Nat) : ∀ (l : List Nat) (a : Nat),
    plainScan a (l ++ [c]) = plainScan a l ++ [a * l.prod] := by
  intro l
  induction l with
  | nil => intro a; simp [plainScan]
  | cons x l ih =>
    intro a
    rw [List.cons_append, plainScan, ih (a * x), plainScan, List.cons_append,
        List.prod_cons]
    rw [mul_assoc]

theorem rev_plainScan_rev : ∀ l : List Nat,
    (plainScan 1 l.reverse).reverse = suffixProds l := by
  intro l
  induction l with
  | nil => rfl
  | cons c cs ih =>
    rw [suffixProds, List.reverse_cons, plainScan_append, List.reverse_append,
        ih, one_mul, List.prod_reverse]
    rfl

theorem one_le_listProd : ∀ (l : List Nat), (∀ c ∈ l, 1 ≤ c) → 1 ≤ l.prod := by
  intro l
  induction l with
  | nil => intro _; exact le_refl 1
  | cons c cs ih =>
    intro h
    rw [List.prod_cons]
    calc 1 = 1 * 1 := rfl
    _ ≤ c * cs.prod :=
      Nat.mul_le_mul (h c (List.mem_cons_self c cs))
        (ih (fun x hx => h x (List.mem_cons_of_mem c hx)))

theorem offsetsScan_eq_plain : ∀ (l : List Nat) (a : Nat),
    (∀ c ∈ l, 1 ≤ c) → a * l.prod < M64 → offsetsScan a l = plainScan a l := by
  intro l
  induction l with
  | nil => intro a _ _; rfl
  | cons c cs ih =>
    intro a hpos hov
    rw [List.prod_cons, ← mul_assoc] at hov
    have hcs : 1 ≤ cs.prod :=
      one_le_listProd cs (fun x hx => hpos x (List.mem_cons_of_mem c hx))
    have hac : a * c < M64 :=
      Nat.lt_of_le_of_lt (Nat.le_mul_of_pos_right _ hcs) hov
    rw [offsetsScan, plainScan, Nat.mod_eq_of_lt hac,
        ih (a * c) (fun x hx => hpos x (List.mem_cons_of_mem c hx)) hov]

theorem rowOffsets_eq_suffixProds (counts : List Nat)
    (hpos : ∀ c ∈ counts, 1 ≤ c) (hov : counts.prod < M64) :
    (offsetsScan 1 counts.reverse).reverse = suffixProds counts := by
  rw [offsetsScan_eq_plain counts.reverse 1
        (fun c hc => hpos c (List.mem_reverse.mp hc))
        (by rw [one_mul, List.prod_reverse]; exact hov),
      rev_plainScan_rev]

theorem exactDot_suffix_lt : ∀ (counts cs : List Nat),
    validCoordsB cs counts = true → (∀ c ∈ counts, 1 ≤ c) →
    exactDot (suffixProds counts) cs < counts.prod := by
  intro counts
  induction counts with
  | nil =>
    intro cs hv _
    cases cs with
    | nil => exact Nat.zero_lt_one
    | cons x xs => exact Bool.noConfusion hv
  | cons n ns ih =>
    intro cs hv hpos
    cases cs with
    | nil => exact Bool.noConfusion hv
    | cons x xs =>
      rw [validCoordsB, Bool.and_eq_true, decide_eq_true_eq] at hv
      have hd := ih xs hv.2 (fun c hc => hpos c (List.mem_cons_of_mem n hc))
      rw [suffixProds, exactDot_cons, List.prod_cons]
      calc ns.prod * x + exactDot (suffixProds ns) xs
          < ns.prod * x + ns.prod := Nat.add_lt_add_left hd _
        _ = ns.prod * (x + 1) := by ring
        _ ≤ ns.prod * n := Nat.mul_le_mul_left _ (Nat.succ_le_of_lt hv.1)
        _ = n * ns.prod := Nat.mul_comm _ _

theorem exactDot_suffix_inj : ∀ (counts cs cs' : List Nat),
    (∀ c ∈ counts, 1 ≤ c) →
    validCoordsB cs counts = true → validCoordsB cs' counts = true →
    exactDot (suffixProds counts) cs = exactDot (suffixProds counts) cs' →
    cs = cs' := by
  intro counts
  induction counts with
  | nil =>
    intro cs cs' _ hv hv' _
    cases cs with
    | nil =>
      cases cs' with
      | nil => rfl
      | cons y ys => exact Bool.noConfusion hv'
    | cons x xs => exact Bool.noConfusion hv
  | cons n ns ih =>
    intro cs cs' hpos hv hv' heq
    cases cs with
    | nil => exact Bool.noConfusion hv
    | cons x xs =>
      cases cs' with
      | nil => exact Bool.noConfusion hv'
      | cons y ys =>
        rw [validCoordsB, Bool.and_eq_true, decide_eq_true_eq] at hv hv'
        have hpos' : ∀ c ∈ ns, 1 ≤ c := fun c hc => hpos c (List.mem_cons_of_mem n hc)
        have hP : 0 < ns.prod := one_le_listProd ns hpos'
        have hd := exactDot_suffix_lt ns xs hv.2 hpos'
        have hd' := exactDot_suffix_lt ns ys hv'.2 hpos'
        rw [suffixProds, exactDot_cons, exactDot_cons] at heq
        have hx : x = y := by
          have h1 : (ns.prod * x + exactDot (suffixProds ns) xs) / ns.prod = x := by
            rw [Nat.mul_add_div hP, Nat.div_eq_of_lt hd, Nat.add_zero]
          have h2 : (ns.prod * y + exactDot (suffixProds ns) ys) / ns.prod = y := by
            rw [Nat.mul_add_div hP, Nat.div_eq_of_lt hd', Nat.add_zero]
          rw [heq] at h1
          exact h1.symm.trans h2
        subst hx
        have hrest : exactDot (suffixProds ns) xs = exactDot (suffixProds ns) ys :=
          Nat.add_left_cancel heq
        rw [ih xs ys hpos' hv.2 hv'.2 hrest]

theorem plainScan_mul : ∀ (l : List Nat) (a b : Nat),
    plainScan (a * b) l = (plainScan b l).map (fun x => a * x) := by
  intro l
  induction l with
  | nil => intro a b; rfl
  | cons c cs ih =>
    intro a b
    rw [plainScan, plainScan, List.map_cons, mul_assoc, ih a (b * c)]

theorem exactDot_map_mul : ∀ (os cs : List Nat) (a : Nat),
    exactDot (os.map (fun x => a * x)) cs = a * exactDot os cs := by
  intro os
  induction os with
  | nil => intro cs a; rw [List.map_nil, exactDot_nil_left, Nat.mul_zero]
  | cons o os ih =>
    intro cs a
    cases cs with
    | nil => rw [exactDot_nil_right, exactDot_nil_right, Nat.mul_zero]
    | cons c cs =>
      rw [List.map_cons, exactDot_cons, exactDot_cons, ih cs a]
      ring

theorem plainScan_one_cons (n : Nat) (ns : List Nat) :
    plainScan 1 (n :: ns) = 1 :: (plainScan 1 ns).map (fun x => n * x) := by
  rw [plainScan, ← plainScan_mul, Nat.mul_one, Nat.one_mul]

theorem exactDot_plain_lt : ∀ (counts cs : List Nat),
    validCoordsB cs counts = true → (∀ c ∈ counts, 1 ≤ c) →
    exactDot (plainScan 1 counts) cs < counts.prod := by
  intro counts
  induction counts with
  | nil =>
    intro cs hv _
    cases cs with
    | nil => exact Nat.zero_lt_one
    | cons x xs => exact Bool.noConfusion hv
  | cons n ns ih =>
    intro cs hv hpos
    cases cs with
    | nil => exact Bool.noConfusion hv
    | cons x xs =>
      rw [validCoordsB, Bool.and_eq_true, decide_eq_true_eq] at hv
      have hd := ih xs hv.2 (fun c hc => hpos c (List.mem_cons_of_mem n hc))
      rw [plainScan_one_cons, exactDot_cons, exactDot_map_mul, List.prod_cons,
          Nat.one_mul]
      calc x + n * exactDot (plainScan 1 ns) xs
          < n + n * exactDot (plainScan 1 ns) xs := Nat.add_lt_add_right hv.1 _
        _ = n * (exactDot (plainScan 1 ns) xs + 1) := by ring
        _ ≤ n * ns.prod := Nat.mul_le_mul_left _ (Nat.succ_le_of_lt hd)

theorem exactDot_plain_inj : ∀ (counts cs cs' : List Nat),
    (∀ c ∈ counts, 1 ≤ c) →
    validCoordsB cs counts = true → validCoordsB cs' counts = true →
    exactDot (plainScan 1 counts) cs = exactDot (plainScan 1 counts) cs' →
    cs = cs' := by
  intro counts
  induction counts with
  | nil =>
    intro cs cs' _ hv hv' _
    cases cs with
    | nil =>
      cases cs' with
      | nil => rfl
      | cons y ys => exact Bool.noConfusion hv'
    | cons x xs => exact Bool.noConfusion hv
  | cons n ns ih =>
    intro cs cs' hpos hv hv' heq
    cases cs with
    | nil => exact Bool.noConfusion hv
    | cons x xs =>
      cases cs' with
      | nil => exact Bool.noConfusion hv'
      | cons y ys =>
        rw [validCoordsB, Bool.and_eq_true, decide_eq_true_eq] at hv hv'
        have hpos' : ∀ c ∈ ns, 1 ≤ c := fun c hc => hpos c (List.mem_cons_of_mem n hc)
        rw [plainScan_one_cons, exactDot_cons, exactDot_cons, exactDot_map_mul,
            exactDot_map_mul, Nat.one_mul, Nat.one_mul] at heq
        have hx : x = y := by
          have h1 : (x + n * exactDot (plainScan 1 ns) xs) % n = x := by
            rw [Nat.add_mul_mod_self_left, Nat.mod_eq_of_lt hv.1]
          have h2 : (y + n * exactDot (plainScan 1 ns) ys) % n = y := by
            rw [Nat.add_mul_mod_self_left, Nat.mod_eq_of_lt hv'.1]
          rw [heq] at h1
          exact h1.symm.trans h2
        subst hx
        have hn : 0 < n := hpos n (List.mem_cons_self n ns)
        have hrest : exactDot (plainScan 1 ns) xs = exactDot (plainScan 1 ns) ys :=
          Nat.eq_of_mul_eq_mul_left hn (Nat.add_left_cancel heq)
        rw [ih xs ys hpos' hv.2 hv'.2 hrest]

/-! ### Claim C1: main results -/

/-- Claim C1 counterexample: with per-dimension range counts
`[2, 2^32, 2^32]` the row-major offset computation wraps to `[0, 2^32, 1]`,
and the distinct valid coordinate vectors `[0,0,0]` and `[1,0,0]` collide
under `range_idx` — injectivity fails on the code as stated. -/
theorem claim_C1_counterexample :
    sC1x.OffsetsComputed ∧
    validCoordsB [0, 0, 0] sC1x.rangeCounts = true ∧
    validCoordsB [1, 0, 0] sC1x.rangeCounts = true ∧
    ([0, 0, 0] : List Nat) ≠ [1, 0, 0] ∧
    sC1x.rangeIdx [0, 0, 0] = sC1x.rangeIdx [1, 0, 0] := by
  have hb : bigStore.ranges.length = 2 ^ 32 := by
    rw [show bigStore.ranges = List.replicate (2 ^ 32) (iv 0, iv 0) from rfl,
        List.length_replicate]
  have hc : sC1x.rangeCounts = [2, 2 ^ 32, 2 ^ 32] := by
    rw [show sC1x.rangeCounts
          = [twoStore.ranges.length, bigStore.ranges.length, bigStore.ranges.length]
        from rfl, hb, show twoStore.ranges.length = 2 from rfl]
  refine ⟨?_, ?_, ?_, by decide, ?_⟩
  · unfold Subarray.OffsetsComputed Subarray.computeRangeOffsets
    rw [show sC1x.effLayout = Layout.rowMajor from rfl, hc,
        show sC1x.rangeOffsets = [0, 2 ^ 32, 1] from rfl]
    decide
  · rw [hc]; decide
  · rw [hc]; decide
  · show wrapDot sC1x.rangeOffsets [0, 0, 0] 0 = wrapDot sC1x.rangeOffsets [1, 0, 0] 0
    rw [show sC1x.rangeOffsets = [0, 2 ^ 32, 1] from rfl]
    decide

theorem validCoordsB_pos : ∀ (cs counts : List Nat),
    validCoordsB cs counts = true → ∀ n ∈ counts, 1 ≤ n := by
  intro cs
  induction cs with
  | nil =>
    intro counts hv n hn
    cases counts with
    | nil => exact absurd hn (List.not_mem_nil n)
    | cons m ms => exact Bool.noConfusion hv
  | cons x xs ih =>
    intro counts hv n hn
    cases counts with
    | nil => exact Bool.noConfusion hv
    | cons m ms =>
      rw [validCoordsB, Bool.and_eq_true, decide_eq_true_eq] at hv
      rcases List.mem_cons.mp hn with h | h
      · subst h
        exact Nat.lt_of_le_of_lt (Nat.zero_le x) hv.1
      · exact ih ms hv.2 n h

/-- Claim C1 amended: on a subarray with computed range offsets, converting
any linear index `idx < range_num()` to coordinates and back is the
identity, with no further proviso; and whenever the exact product of the
per-dimension range counts fits in a `u64` (no wrap in the offset
computation — the counterexample shows injectivity fails under wrap),
`range_idx` is injective on valid coordinate vectors (whose very existence
forces every per-dimension range count to be positive).  Both hold for
row-major and col-major effective layouts. -/
theorem claim_C1_round_trip_inj (s : Subarray) (idx : Nat) (c c' : List Nat)
    (hoff : s.OffsetsComputed) (hidx : idx < s.rangeNum) :
    (∃ cs, s.getRangeCoords idx = some cs ∧ s.rangeIdx cs = idx) ∧
    (s.rangeCounts.prod < M64 →
      validCoordsB c s.rangeCounts = true →
      validCoordsB c' s.rangeCounts = true →
      c ≠ c' →
      s.rangeIdx c ≠ s.rangeIdx c') := by
  have hidxM : idx < M64 := lt_trans hidx (rangeNum_lt_M64 s)
  have hcne : s.rangeCounts ≠ [] := by
    intro hnil
    have hrn : s.ranges = [] := by
      have h1 := congrArg List.length hnil
      rw [Subarray.rangeCounts, List.length_map] at h1
      exact List.length_eq_zero.mp h1
    have h0 : s.rangeNum = 0 := by rw [Subarray.rangeNum, hrn]; rfl
    rw [h0] at hidx
    exact Nat.not_lt_zero idx hidx
  unfold Subarray.OffsetsComputed Subarray.computeRangeOffsets at hoff
  cases hL : s.effLayout with
  | rowMajor =>
    rw [hL] at hoff
    have hofs : s.rangeOffsets = (offsetsScan 1 s.rangeCounts.reverse).reverse :=
      (Option.some.inj hoff).symm
    constructor
    · refine ⟨divModScan idx s.rangeOffsets, ?_, ?_⟩
      · unfold Subarray.getRangeCoords
        rw [hL]
      · show wrapDot s.rangeOffsets (divModScan idx s.rangeOffsets) 0 = idx
        cases hrc : s.rangeCounts.reverse with
        | nil => exact absurd (List.reverse_eq_nil_iff.mp hrc) hcne
        | cons a l =>
          refine roundTrip_of_last_one s.rangeOffsets idx
            ((offsetsScan (1 * a % M64) l).reverse) ?_ hidxM
          rw [hofs, hrc, offsetsScan, List.reverse_cons]
    · intro hov hc hc' hne
      have hpos : ∀ n ∈ s.rangeCounts, 1 ≤ n := validCoordsB_pos c s.rangeCounts hc
      have hofs2 : s.rangeOffsets = suffixProds s.rangeCounts := by
        rw [hofs, rowOffsets_eq_suffixProds s.rangeCounts hpos hov]
      show wrapDot s.rangeOffsets c 0 ≠ wrapDot s.rangeOffsets c' 0
      rw [hofs2]
      have hlt := exactDot_suffix_lt s.rangeCounts c hc hpos
      have hlt' := exactDot_suffix_lt s.rangeCounts c' hc' hpos
      rw [wrapDot_eq_exact _ _ 0 (by rw [Nat.zero_add]; exact lt_trans hlt hov),
          wrapDot_eq_exact _ _ 0 (by rw [Nat.zero_add]; exact lt_trans hlt' hov),
          Nat.zero_add, Nat.zero_add]
      intro heq
      exact hne (exactDot_suffix_inj s.rangeCounts c c' hpos hc hc' heq)
  | colMajor =>
    rw [hL] at hoff
    have hofs : s.rangeOffsets = offsetsScan 1 s.rangeCounts :=
      (Option.some.inj hoff).symm
    constructor
    · refine ⟨(divModScan idx s.rangeOffsets.reverse).reverse, ?_, ?_⟩
      · unfold Subarray.getRangeCoords
        rw [hL]
      · show wrapDot s.rangeOffsets ((divModScan idx s.rangeOffsets.reverse).reverse) 0 = idx
        cases hrc : s.rangeCounts with
        | nil => exact absurd hrc hcne
        | cons a l =>
          refine roundTrip_col s.rangeOffsets idx (offsetsScan (1 * a % M64) l) ?_ hidxM
          rw [hofs, hrc, offsetsScan]
    · intro hov hc hc' hne
      have hpos : ∀ n ∈ s.rangeCounts, 1 ≤ n := validCoordsB_pos c s.rangeCounts hc
      have hplain : s.rangeOffsets = plainScan 1 s.rangeCounts := by
        rw [hofs, offsetsScan_eq_plain s.rangeCounts 1 hpos
              (by rw [Nat.one_mul]; exact hov)]
      show wrapDot s.rangeOffsets c 0 ≠ wrapDot s.rangeOffsets c' 0
      rw [hplain]
      have hlt := exactDot_plain_lt s.rangeCounts c hc hpos
      have hlt' := exactDot_plain_lt s.rangeCounts c' hc' hpos
      rw [wrapDot_eq_exact _ _ 0 (by rw [Nat.zero_add]; exact lt_trans hlt hov),
          wrapDot_eq_exact _ _ 0 (by rw [Nat.zero_add]; exact lt_trans hlt' hov),
          Nat.zero_add, Nat.zero_add]
      intro heq
      exact hne (exactDot_plain_inj s.rangeCounts c c' hpos hc hc' heq)
  | unordered =>
    rw [hL] at hoff
    exact Option.noConfusion hoff
  | globalOrder =>
    rw [hL] at hoff
    exact Option.noConfusion hoff

/-- Claim C1 witness: the amended statement evaluated on a concrete
2-dimensional row-major subarray with range counts `2 × 3`, at linear index
`4`; the injectivity part is then instantiated at the distinct valid
coordinate vectors `[0,1]` and `[1,0]`. -/
theorem claim_C1_witness :
    sC1w.OffsetsComputed ∧ 4 < sC1w.rangeNum ∧
    ((∃ cs, sC1w.getRangeCoords 4 = some cs ∧ sC1w.rangeIdx cs = 4) ∧
     (sC1w.rangeCounts.prod < M64 →
      validCoordsB [0, 1] sC1w.rangeCounts = true →
      validCoordsB [1, 0] sC1w.rangeCounts = true →
      ([0, 1] : List Nat) ≠ [1, 0] →
      sC1w.rangeIdx [0, 1] ≠ sC1w.rangeIdx [1, 0])) ∧
    sC1w.rangeIdx [0, 1] ≠ sC1w.rangeIdx [1, 0] :=
  ⟨by show sC1w.computeRangeOffsets = some sC1w.rangeOffsets; decide,
   by decide,
   claim_C1_round_trip_inj sC1w 4 [0, 1] [1, 0]
     (by show sC1w.computeRangeOffsets = some sC1w.rangeOffsets; decide)
     (by decide),
   (claim_C1_round_trip_inj sC1w 4 [0, 1] [1, 0]
     (by show sC1w.computeRangeOffsets = some sC1w.rangeOffsets; decide)
     (by decide)).2 (by decide) (by decide) (by decide) (by decide)⟩

/-! ### Claim C6 -/

theorem foldl_add2 (g h : α → ℚ) (l : List α) : ∀ acc : ResultSize,
    l.foldl (fun a x =>
      { a with size_fixed := a.size_fixed + g x,
               mem_size_fixed := a.mem_size_fixed + h x }) acc =
    { acc with size_fixed := acc.size_fixed + (l.map g).sum,
               mem_size_fixed := acc.mem_size_fixed + (l.map h).sum } := by
  induction l with
  | nil => intro acc; simp
  | cons x l ih =>
    intro acc
    rw [List.foldl_cons, ih]
    simp only [List.map_cons, List.sum_cons]
    congr 1 <;> ring

theorem foldl_add4 (g1 g2 g3 g4 : α → ℚ) (l : List α) : ∀ acc : ResultSize,
    l.foldl (fun a x =>
      { a with size_fixed := a.size_fixed + g1 x,
               size_var := a.size_var + g2 x,
               mem_size_fixed := a.mem_size_fixed + g3 x,
               mem_size_var := a.mem_size_var + g4 x }) acc =
    { acc with size_fixed := acc.size_fixed + (l.map g1).sum,
               size_var := acc.size_var + (l.map g2).sum,
               mem_size_fixed := acc.mem_size_fixed + (l.map g3).sum,
               mem_size_var := acc.mem_size_var + (l.map g4).sum } := by
  induction l with
  | nil => intro acc; simp
  | cons x l ih =>
    intro acc
    rw [List.foldl_cons, ih]
    simp only [List.map_cons, List.sum_cons]
    congr 1 <;> ring

theorem accumOverFragment_false (m : FragmentMeta) (nm : String)
    (ov : TileOverlap) (acc : ResultSize) :
    accumOverFragment m nm false ov acc =
      { acc with
        size_fixed := acc.size_fixed
          + (fullSum (m.tileSize nm) ov + scaledTilesSum (m.tileSize nm) ov),
        mem_size_fixed := acc.mem_size_fixed
          + (fullSum (m.tileSize nm) ov + wholeTilesSum (m.tileSize nm) ov) } := by
  unfold accumOverFragment
  simp only [Bool.not_false, if_true, foldl_add2]
  simp only [fullSum, fullListSum, scaledTilesSum, scaledListSum,
    wholeTilesSum, wholeListSum]
  congr 1 <;> ring

theorem accumOverFragment_true (m : FragmentMeta) (nm : String)
    (ov : TileOverlap) (acc : ResultSize) :
    accumOverFragment m nm true ov acc =
      { acc with
        size_fixed := acc.size_fixed
          + (fullSum (m.tileSize nm) ov + scaledTilesSum (m.tileSize nm) ov),
        size_var := acc.size_var
          + (fullSum (m.tileVarSize nm) ov + scaledTilesSum (m.tileVarSize nm) ov),
        mem_size_fixed := acc.mem_size_fixed
          + (fullSum (m.tileSize nm) ov + wholeTilesSum (m.tileSize nm) ov),
        mem_size_var := acc.mem_size_var
          + (fullSum (m.tileVarSize nm) ov + wholeTilesSum (m.tileVarSize nm) ov) } := by
  unfold accumOverFragment
  simp only [Bool.not_true, Bool.false_eq_true, if_false, foldl_add4]
  simp only [fullSum, fullListSum, scaledTilesSum, scaledListSum,
    wholeTilesSum, wholeListSum]
  congr 1 <;> ring

theorem estAccum_false (s : Subarray) (nm : String) (idx : Nat) :
    s.estAccum nm idx false =
      ⟨((List.range s.fragments.length).map (fun f =>
          fullSum (fragTileSize s nm f) (fragOverlap s idx f)
          + scaledTilesSum (fragTileSize s nm f) (fragOverlap s idx f))).sum,
       0,
       ((List.range s.fragments.length).map (fun f =>
          fullSum (fragTileSize s nm f) (fragOverlap s idx f)
          + wholeTilesSum (fragTileSize s nm f) (fragOverlap s idx f))).sum,
       0⟩ := by
  unfold Subarray.estAccum
  simp only [accumOverFragment_false, foldl_add2, fragTileSize, fragOverlap]
  simp

theorem estAccum_true (s : Subarray) (nm : String) (idx : Nat) :
    s.estAccum nm idx true =
      ⟨((List.range s.fragments.length).map (fun f =>
          fullSum (fragTileSize s nm f) (fragOverlap s idx f)
          + scaledTilesSum (fragTileSize s nm f) (fragOverlap s idx f))).sum,
       ((List.range s.fragments.length).map (fun f =>
          fullSum (fragTileVarSize s nm f) (fragOverlap s idx f)
          + scaledTilesSum (fragTileVarSize s nm f) (fragOverlap s idx f))).sum,
       ((List.range s.fragments.length).map (fun f =>
          fullSum (fragTileSize s nm f) (fragOverlap s idx f)
          + wholeTilesSum (fragTileSize s nm f) (fragOverlap s idx f))).sum,
       ((List.range s.fragments.length).map (fun f =>
          fullSum (fragTileVarSize s nm f) (fragOverlap s idx f)
          + wholeTilesSum (fragTileVarSize s nm f) (fragOverlap s idx f))).sum⟩ := by
  unfold Subarray.estAccum
  simp only [accumOverFragment_true, foldl_add4, fragTileSize, fragTileVarSize, fragOverlap]
  simp

theorem scaled_le_whole (sz : Nat → Nat) (l : List (Nat × ℚ))
    (h : ∀ p ∈ l, p.2 ≤ 1) : scaledListSum sz l ≤ wholeListSum sz l := by
  unfold scaledListSum wholeListSum
  refine List.sum_le_sum (fun p hp => ?_)
  calc (sz p.1 : ℚ) * p.2 ≤ (sz p.1 : ℚ) * 1 :=
      mul_le_mul_of_nonneg_left (h p hp) (by positivity)
  _ = (sz p.1 : ℚ) := mul_one _

/-- Claim C6: the pre-calibration per-range accumulation adds, for each
fragment, the whole sizes of fully-covered tiles to both the estimate and the
memory bound, the coverage-scaled sizes of partial tiles to the estimate, but
the full sizes of partial tiles to the memory bound; consequently, whenever
every coverage fraction is at most `1`, `mem_fixed ≥ size_fixed` (and
`mem_var ≥ size_var`) before calibration. -/
theorem claim_C6_estimator (s : Subarray) (nm : String) (idx : Nat) (vs : Bool)
    (hrho : ∀ f ∈ List.range s.fragments.length,
      ∀ p ∈ (fragOverlap s idx f).tiles, p.2 ≤ 1) :
    (s.estAccum nm idx vs).size_fixed =
      ((List.range s.fragments.length).map (fun f =>
        fullSum (fragTileSize s nm f) (fragOverlap s idx f)
        + scaledTilesSum (fragTileSize s nm f) (fragOverlap s idx f))).sum ∧
    (s.estAccum nm idx vs).mem_size_fixed =
      ((List.range s.fragments.length).map (fun f =>
        fullSum (fragTileSize s nm f) (fragOverlap s idx f)
        + wholeTilesSum (fragTileSize s nm f) (fragOverlap s idx f))).sum ∧
    (vs = true →
      (s.estAccum nm idx vs).size_var =
        ((List.range s.fragments.length).map (fun f =>
          fullSum (fragTileVarSize s nm f) (fragOverlap s idx f)
          + scaledTilesSum (fragTileVarSize s nm f) (fragOverlap s idx f))).sum ∧
      (s.estAccum nm idx vs).mem_size_var =
        ((List.range s.fragments.length).map (fun f =>
          fullSum (fragTileVarSize s nm f) (fragOverlap s idx f)
          + wholeTilesSum (fragTileVarSize s nm f) (fragOverlap s idx f))).sum) ∧
    (s.estAccum nm idx vs).size_fixed ≤ (s.estAccum nm idx vs).mem_size_fixed ∧
    (s.estAccum nm idx vs).size_var ≤ (s.estAccum nm idx vs).mem_size_var := by
  cases vs with
  | false =>
    rw [estAccum_false]
    refine ⟨rfl, rfl, fun h => Bool.noConfusion h, ?_, le_refl 0⟩
    refine List.sum_le_sum (fun f hf => ?_)
    exact add_le_add_left (scaled_le_whole _ _ (hrho f hf)) _
  | true =>
    rw [estAccum_true]
    refine ⟨rfl, rfl, fun _ => ⟨rfl, rfl⟩, ?_, ?_⟩ <;>
      refine List.sum_le_sum (fun f hf => ?_) <;>
      exact add_le_add_left (scaled_le_whole _ _ (hrho f hf)) _

/-- Claim C6 witness: the statement evaluated on one fragment with constant
tile sizes 10/20 whose overlap has the fully-covered interval `[0, 1]` and
one half-covered tile. -/
theorem claim_C6_witness :
    (∀ f ∈ List.range sC6.fragments.length,
      ∀ p ∈ (fragOverlap sC6 0 f).tiles, p.2 ≤ 1) ∧
    (sC6.estAccum "a1" 0 true).size_fixed =
      ((List.range sC6.fragments.length).map (fun f =>
        fullSum (fragTileSize sC6 "a1" f) (fragOverlap sC6 0 f)
        + scaledTilesSum (fragTileSize sC6 "a1" f) (fragOverlap sC6 0 f))).sum ∧
    (sC6.estAccum "a1" 0 true).size_fixed ≤ (sC6.estAccum "a1" 0 true).mem_size_fixed ∧
    (sC6.estAccum "a1" 0 true).size_var ≤ (sC6.estAccum "a1" 0 true).mem_size_var :=
  have h : ∀ f ∈ List.range sC6.fragments.length,
      ∀ p ∈ (fragOverlap sC6 0 f).tiles, p.2 ≤ 1 := by
    intro f hf p hp
    have hf0 : f = 0 := Nat.lt_one_iff.mp (List.mem_range.mp hf)
    subst hf0
    have hov : fragOverlap sC6 0 0 = ⟨[(0, 1)], [(2, (1 : ℚ) / 2)]⟩ := rfl
    rw [hov] at hp
    have hp0 : p = (2, (1 : ℚ) / 2) := List.mem_singleton.mp hp
    rw [hp0]
    norm_num
  ⟨h, (claim_C6_estimator sC6 "a1" 0 true h).1,
      (claim_C6_estimator sC6 "a1" 0 true h).2.2.2.1,
      (claim_C6_estimator sC6 "a1" 0 true h).2.2.2.2⟩

/-! ### Claim C3 -/

theorem widthsProd_pos (rs : List (Val × Val)) : 1 ≤ widthsProd rs := by
  induction rs with
  | nil => simp [widthsProd]
  | cons r rs ih =>
    simp only [widthsProd, List.map_cons, List.prod_cons] at ih ⊢
    calc 1 = 1 * 1 := rfl
    _ ≤ ((r.2.num - r.1.num).toNat + 1) * (rs.map (fun r => (r.2.num - r.1.num).toNat + 1)).prod :=
      Nat.mul_le_mul (Nat.succ_le_succ (Nat.zero_le _)) ih

theorem safeMul_eq_min (a b : Nat) : safeMul a b = min (a * b) U64MAX := by
  unfold safeMul
  by_cases h : a * b > U64MAX
  · rw [if_pos h, min_eq_right (le_of_lt h)]
  · rw [if_neg h, min_eq_left (Nat.le_of_not_lt h)]

theorem cellNumLoop_eq (rs : List (Val × Val))
    (hb : ∀ r ∈ rs, 0 ≤ r.2.num - r.1.num ∧ r.2.num - r.1.num ≤ (U64MAX : Int)) :
    ∀ ret, 1 ≤ ret → ret ≤ U64MAX →
      cellNumLoop rs ret = min (ret * widthsProd rs) U64MAX := by
  induction rs with
  | nil =>
    intro ret _ h2
    simp only [cellNumLoop, widthsProd, List.map_nil, List.prod_nil, Nat.mul_one]
    rw [min_eq_left h2]
  | cons r rs ih =>
    intro ret h1 h2
    have hr := hb r (List.mem_cons_self r rs)
    have hmem : ∀ x ∈ rs, 0 ≤ x.2.num - x.1.num ∧ x.2.num - x.1.num ≤ (U64MAX : Int) :=
      fun x hx => hb x (List.mem_cons_of_mem r hx)
    have hcast : (U64MAX : Int) < (M64 : Int) := by
      exact_mod_cast (by decide : U64MAX < M64)
    have hmod : (r.2.num - r.1.num) % (M64 : Int) = r.2.num - r.1.num :=
      Int.emod_eq_of_lt hr.1 (lt_of_le_of_lt hr.2 hcast)
    have hwp : widthsProd (r :: rs) = ((r.2.num - r.1.num).toNat + 1) * widthsProd rs := by
      simp [widthsProd]
    have hP := widthsProd_pos rs
    simp only [cellNumLoop, hmod]
    set d := (r.2.num - r.1.num).toNat with hdd
    by_cases hcase : d = U64MAX
    · rw [if_pos hcase, hwp]
      have hbig : U64MAX ≤ ret * ((d + 1) * widthsProd rs) := by
        calc U64MAX ≤ d + 1 := by rw [hcase]; exact Nat.le_succ _
        _ ≤ (d + 1) * widthsProd rs := le_mul_of_one_le_right (Nat.zero_le _) hP
        _ ≤ ret * ((d + 1) * widthsProd rs) := le_mul_of_one_le_left (Nat.zero_le _) h1
      rw [min_eq_right hbig]
    · rw [if_neg hcase, hwp, safeMul_eq_min]
      have h1' : 1 ≤ min ((d + 1) * ret) U64MAX :=
        le_min (Nat.one_le_iff_ne_zero.mpr (Nat.mul_ne_zero (Nat.succ_ne_zero _)
          (Nat.one_le_iff_ne_zero.mp h1))) (by decide)
      have h2' : min ((d + 1) * ret) U64MAX ≤ U64MAX := min_le_right _ _
      rw [ih hmem _ h1' h2']
      by_cases hbig : (d + 1) * ret ≤ U64MAX
      · rw [min_eq_left hbig]
        have : (d + 1) * ret * widthsProd rs = ret * ((d + 1) * widthsProd rs) := by ring
        rw [this]
      · have hlt : U64MAX < (d + 1) * ret := Nat.lt_of_not_le hbig
        rw [min_eq_right (le_of_lt hlt)]
        have l1 : U64MAX ≤ U64MAX * widthsProd rs :=
          le_mul_of_one_le_right (Nat.zero_le _) hP
        rw [min_eq_right l1]
        have l2 : U64MAX ≤ ret * ((d + 1) * widthsProd rs) := by
          calc U64MAX ≤ (d + 1) * ret := le_of_lt hlt
          _ ≤ (d + 1) * ret * widthsProd rs := le_mul_of_one_le_right (Nat.zero_le _) hP
          _ = ret * ((d + 1) * widthsProd rs) := by ring
        rw [min_eq_right l2]

/-- Claim C3: at any valid range index whose selected per-dimension ranges
`rs` satisfy the store invariant `lo ≤ hi` with `u64`-sized widths,
`cell_num<T>` returns `1` when the range is unary on every dimension
(regardless of `T`), `UINT64_MAX` for a non-unary range of floating-point
`T`, and otherwise the overflow-checked product of the widths `hi - lo + 1`,
saturated to the sentinel `UINT64_MAX` on overflow. -/
theorem claim_C3_cell_num (s : Subarray) (t : Datatype) (idx : Nat)
    (rs : List (Val × Val))
    (_hsupp : t ≠ Datatype.other)
    (hr : s.rangeAt idx = some rs)
    (hb : ∀ r ∈ rs, r.1.num ≤ r.2.num ∧ r.2.num - r.1.num ≤ (U64MAX : Int)) :
    s.cellNum t idx =
      if ∀ r ∈ rs, r.1 = r.2 then 1
      else if t.isReal then U64MAX
      else min (widthsProd rs) U64MAX := by
  have hiso : s.isUnaryAt idx = true ↔ ∀ r ∈ rs, r.1 = r.2 := by
    unfold Subarray.isUnaryAt
    rw [hr]
    simp [List.all_eq_true]
  unfold Subarray.cellNum
  rw [hr, Option.getD_some]
  by_cases hu : ∀ r ∈ rs, r.1 = r.2
  · rw [if_pos (hiso.mpr hu), if_pos hu]
  · rw [if_neg (fun hcon => hu (hiso.mp hcon)), if_neg hu]
    by_cases hreal : t.isReal = true
    · rw [if_pos hreal, if_pos hreal]
    · rw [if_neg hreal, if_neg hreal]
      have hb' : ∀ r ∈ rs, 0 ≤ r.2.num - r.1.num ∧ r.2.num - r.1.num ≤ (U64MAX : Int) :=
        fun r h => ⟨Int.sub_nonneg.mpr (hb r h).1, (hb r h).2⟩
      rw [cellNumLoop_eq rs hb' 1 le_rfl (by decide), one_mul]

/-- Claim C3 witness: the statement evaluated at the concrete non-unary
`int32` range `[1, 3]`, where the checked product is `3`. -/
theorem claim_C3_witness :
    sC3.rangeAt 0 = some [(iv 1, iv 3)] ∧
    (∀ r ∈ [(iv 1, iv 3)], r.1.num ≤ r.2.num ∧ r.2.num - r.1.num ≤ (U64MAX : Int)) ∧
    sC3.cellNum Datatype.int32 0 =
      (if ∀ r ∈ [(iv 1, iv 3)], r.1 = r.2 then 1
       else if Datatype.int32.isReal then U64MAX
       else min (widthsProd [(iv 1, iv 3)]) U64MAX) :=
  ⟨by decide, by decide,
   claim_C3_cell_num sC3 Datatype.int32 0 [(iv 1, iv 3)] (by decide) (by decide) (by decide)⟩

/-! ### Claim C9 -/

/-- Claim C9: with a sparse array and `coords` not a schema attribute, the
fixed-form `get_est_result_size` and `get_max_memory_size` accept the
reserved name `coords` — both the attribute-existence check and the
fixed-sized check are skipped, and the call proceeds straight to the
estimation — whereas both var-form two-buffer calls reject `coords` with an
invalid-attribute error, leaving the state unchanged. -/
theorem claim_C9_coords_forms (s : Subarray) (amp : ℚ)
    (hd : s.schema.dense = false)
    (hc : s.schema.attribute coordsName = none) :
    s.getEstResultSizeFixed amp (some coordsName) true =
      ((s.computeEstResultSizeDispatch amp).1.map (fun _ =>
         qceil (lookupRS (s.computeEstResultSizeDispatch amp).2.estResultSize coordsName).size_fixed),
       (s.computeEstResultSizeDispatch amp).2) ∧
    s.getMaxMemorySizeFixed amp (some coordsName) true =
      (Except.ok (qceil (lookupRS (s.computeEstResultSizeDispatch amp).2.estResultSize coordsName).mem_size_fixed),
       (s.computeEstResultSizeDispatch amp).2) ∧
    s.getEstResultSizeVar amp (some coordsName) true =
      (Except.error SubErr.invalidAttribute, s) ∧
    s.getMaxMemorySizeVar amp (some coordsName) true =
      (Except.error SubErr.invalidAttribute, s) := by
  refine ⟨?_, ?_, ?_, ?_⟩
  · rcases hq : s.computeEstResultSizeDispatch amp with ⟨st, s1⟩
    cases st with
    | error e => simp [Subarray.getEstResultSizeFixed, hd, hq, Except.map]
    | ok u => simp [Subarray.getEstResultSizeFixed, hd, hq, Except.map]
  · rcases hq : s.computeEstResultSizeDispatch amp with ⟨st, s1⟩
    simp [Subarray.getMaxMemorySizeFixed, hd, hq]
  · simp [Subarray.getEstResultSizeVar, hd, hc]
  · simp [Subarray.getMaxMemorySizeVar, hd, hc]

/-- Claim C9 witness: the statement applied to a concrete sparse subarray
whose schema holds the single fixed attribute `a1`. -/
theorem claim_C9_witness :
    sC9.schema.dense = false ∧ sC9.schema.attribute coordsName = none ∧
    sC9.getEstResultSizeVar 1 (some coordsName) true =
      (Except.error SubErr.invalidAttribute, sC9) :=
  ⟨rfl, by decide, (claim_C9_coords_forms sC9 1 rfl (by decide)).2.2.1⟩

/-! ### Claim C10 -/

/-- Claim C10: when the internal estimation fails (here: unsupported domain
type with no cached estimate), `get_est_result_size` propagates the failure
to the caller, but both `get_max_memory_size` overloads discard the status of
`compute_est_result_size` and return `Ok`, reading the never-computed
estimation map (whose missing entries value-initialize to zero). -/
theorem claim_C10_max_memory_ignores_failure (s : Subarray) (amp : ℚ)
    (nm : String) (a : Attr)
    (hd : s.schema.dense = false)
    (_hc : s.schema.attribute coordsName = none)
    (ht : s.schema.domType = Datatype.other)
    (hn : s.resultEstSizeComputed = false)
    (ha : s.schema.attribute nm = some a)
    (hv : a.varSize = true) :
    (s.getEstResultSizeFixed amp (some coordsName) true).1 =
      Except.error SubErr.unsupportedType ∧
    (s.getEstResultSizeVar amp (some nm) true).1 =
      Except.error SubErr.unsupportedType ∧
    s.getMaxMemorySizeFixed amp (some coordsName) true =
      (Except.ok (qceil (lookupRS s.estResultSize coordsName).mem_size_fixed), s) ∧
    s.getMaxMemorySizeVar amp (some nm) true =
      (Except.ok (qceil (lookupRS s.estResultSize nm).mem_size_fixed,
                  qceil (lookupRS s.estResultSize nm).mem_size_var), s) := by
  have hq : s.computeEstResultSizeDispatch amp =
      (Except.error SubErr.unsupportedType, s) := by
    simp only [Subarray.computeEstResultSizeDispatch, hn, ht]
    rfl
  refine ⟨?_, ?_, ?_, ?_⟩
  · simp [Subarray.getEstResultSizeFixed, hd, hq]
  · simp [Subarray.getEstResultSizeVar, hd, ha, hv, hq]
  · simp [Subarray.getMaxMemorySizeFixed, hd, hq]
  · simp [Subarray.getMaxMemorySizeVar, hd, ha, hv, hq]

/-- Claim C10 witness: the statement applied to a concrete sparse subarray of
unsupported domain type with the single var attribute `a2`. -/
theorem claim_C10_witness :
    sC10.schema.dense = false ∧ sC10.schema.domType = Datatype.other ∧
    sC10.resultEstSizeComputed = false ∧
    sC10.schema.attribute "a2" = some ⟨"a2", true⟩ ∧
    (sC10.getEstResultSizeFixed 1 (some coordsName) true).1 =
      Except.error SubErr.unsupportedType :=
  ⟨rfl, rfl, rfl, by decide,
   (claim_C10_max_memory_ignores_failure sC10 1 "a2" ⟨"a2", true⟩ rfl (by decide)
     rfl rfl (by decide) rfl).1⟩

/-- Claim C2 witness: the amended statement evaluated at the invalid bounds
`[5, 3]` on a concrete `int32` subarray. -/
theorem claim_C2_witness :
    ((some (iv 5, iv 3) : Option (Val × Val)) = none ∨ sC2.schema.dimNum ≤ 0 ∨
      (∃ v, (some (iv 5, iv 3) : Option (Val × Val)) = some v ∧
        (checkNan sC2.schema.domType v = true ∨ v.2.num < v.1.num ∨
         v.1.num < (sC2.schema.domain.getD 0 default).1.num ∨
         (sC2.schema.domain.getD 0 default).2.num < v.2.num))) ∧
    (∃ e, (sC2.addRange 0 (some (iv 5, iv 3))).1 = Except.error e) ∧
    (sC2.addRange 0 (some (iv 5, iv 3))).2.ranges = sC2.ranges :=
  have h : (some (iv 5, iv 3) : Option (Val × Val)) = none ∨ sC2.schema.dimNum ≤ 0 ∨
      (∃ v, (some (iv 5, iv 3) : Option (Val × Val)) = some v ∧
        (checkNan sC2.schema.domType v = true ∨ v.2.num < v.1.num ∨
         v.1.num < (sC2.schema.domain.getD 0 default).1.num ∨
         (sC2.schema.domain.getD 0 default).2.num < v.2.num)) :=
    Or.inr (Or.inr ⟨(iv 5, iv 3), rfl, Or.inr (Or.inl (by decide))⟩)
  ⟨h, (claim_C2_add_range_errors sC2 0 (some (iv 5, iv 3)) h).1,
       (claim_C2_add_range_errors sC2 0 (some (iv 5, iv 3)) h).2.1⟩

end TileDB
